import Mathlib

/-
  Verification of the water-system simulation (giak/water-system-project).

  Shallow embedding of the reactive compute graph: each RxJS stream's per-tick
  computation is embedded as a pure Lean function over the rationals, the
  orchestrator state updates as an explicit event-step function, and the alert
  priority queue as a list kept in comparator order.  JavaScript numbers are
  modelled by exact rationals; where NaN propagation matters (the water-quality
  division) a dedicated JSNum type with NaN and infinities is used.
-/

namespace WaterSystem

/-- Weather conditions, from src/src/types/waterSystem.ts:
WeatherCondition = ensoleillé | nuageux | pluvieux | orageux
(sunny | cloudy | rainy | stormy). -/
inductive Weather
  | sunny
  | cloudy
  | rainy
  | stormy
deriving DecidableEq

/-! Configuration constants from src/src/config/waterSystemConfig.ts. -/

def INITIAL_WATER_LEVEL : ℚ := 50

def INITIAL_GLACIER_VOLUME : ℚ := 1000000

def INITIAL_WATER_QUALITY : ℚ := 90

def INITIAL_FLOOD_RISK : ℚ := 10

def INITIAL_DAM_WATER_LEVEL : ℚ := 70

def INITIAL_DAM_WATER_VOLUME : ℚ := 1000000

def CRITICAL_WATER_LEVEL : ℚ := 20

def LOW_WATER_LEVEL : ℚ := 30

def MEDIUM_WATER_QUALITY : ℚ := 70

def CRITICAL_WATER_QUALITY : ℚ := 50

/-! Dam level stream, from src/src/composables/water-system/useDamManagement.ts
lines 18-48: adjustedLevel = level + glacier.waterFlow, multiplied by a weather
factor (rainy 1.2, stormy 1.4, sunny 0.9, cloudy unchanged), plus a random
variation (rand - 0.5) * 5 with rand drawn from [0,1), clamped to [0,100]. -/

def WEATHER_FACTOR_RAINY : ℚ := 12/10

def WEATHER_FACTOR_STORMY : ℚ := 14/10

def WEATHER_FACTOR_SUNNY : ℚ := 9/10

def damStep (level : ℚ) (w : Weather) (glacierWaterFlow : ℚ) (rand : ℚ) : ℚ :=
  let adjusted1 := level + glacierWaterFlow
  let adjusted2 :=
    match w with
    | Weather.rainy => adjusted1 * WEATHER_FACTOR_RAINY
    | Weather.stormy => adjusted1 * WEATHER_FACTOR_STORMY
    | Weather.sunny => adjusted1 * WEATHER_FACTOR_SUNNY
    | Weather.cloudy => adjusted1
  let adjusted3 := adjusted2 + (rand - 1/2) * 5
  max 0 (min adjusted3 100)

/-- Water-quality stream, from
src/src/composables/water-system/useWaterQualityControl.ts lines 10-18:
qualityScore = purified / (purified + treated) * 100, times 0.9 when stormy,
then clamped via max(0, min(100, score)).  Rational model (division is total
in Lean with x / 0 = 0); the JavaScript NaN behaviour of the same computation
is modelled separately by jsQualityStep below. -/
def qualityStep (purified treated : ℚ) (w : Weather) : ℚ :=
  let score1 := purified / (purified + treated) * 100
  let score2 := if w = Weather.stormy then score1 * (9/10) else score1
  max 0 (min 100 score2)

/-- Flood-risk stream, from
src/src/composables/water-system/useFloodPrediction.ts lines 10-22:
risk starts at 0, +20 if rainy, +40 if stormy, +30 if level > 80,
+20 more if level > 90, capped by min(100, risk). -/
def floodStep (waterLevel : ℚ) (w : Weather) : ℚ :=
  let r1 : ℚ := 0
  let r2 := if w = Weather.rainy then r1 + 20 else r1
  let r3 := if w = Weather.stormy then r2 + 40 else r2
  let r4 := if waterLevel > 80 then r3 + 30 else r3
  let r5 := if waterLevel > 90 then r4 + 20 else r4
  min 100 r5

/-! Glacier melt stream, from src/src/composables/water-system/index.ts
lines 31-70 (useGlacierMelt): per tick meltRate = volume * coefficient(weather)
with coefficients sunny 0.0001, cloudy 0.00005, rainy 0.00015, stormy 0.0002;
newVolume = max(0, volume - meltRate); waterFlow = meltRate * 0.8. -/

def MELT_RATE_SUNNY : ℚ := 1/10000

def MELT_RATE_CLOUDY : ℚ := 5/100000

def MELT_RATE_RAINY : ℚ := 15/100000

def MELT_RATE_STORMY : ℚ := 2/10000

def WATER_FLOW_ADJUSTMENT : ℚ := 8/10

def meltCoef : Weather → ℚ
  | Weather.sunny => MELT_RATE_SUNNY
  | Weather.cloudy => MELT_RATE_CLOUDY
  | Weather.rainy => MELT_RATE_RAINY
  | Weather.stormy => MELT_RATE_STORMY

/-- Record emitted by the glacier melt stream. -/
structure GlacierEmission where
  volume : ℚ
  meltRate : ℚ
  waterFlow : ℚ
deriving DecidableEq

def glacierMeltStep (w : Weather) (volume : ℚ) : GlacierEmission :=
  let meltRate := volume * meltCoef w
  let newVolume := max 0 (volume - meltRate)
  let waterFlow := meltRate * WATER_FLOW_ADJUSTMENT
  { volume := newVolume, meltRate := meltRate, waterFlow := waterFlow }

/-- Glacier volume after a sequence of ticks with the given weather on each. -/
def glacierRun (ws : List Weather) (v : ℚ) : ℚ :=
  ws.foldl (fun acc w => (glacierMeltStep w acc).volume) v

/-! Overall system status. -/

inductive SystemStatus
  | Critical
  | Concerning
  | Normal
deriving DecidableEq

/-- From src/src/composables/water-system/useWaterSystem.ts lines 782-796:
the overallSystemStatus computed property.  Note the STRICT comparison
waterLevel < LOW_WATER_LEVEL in the second test. -/
def overallSystemStatus (waterLevel waterQuality : ℚ) : SystemStatus :=
  if waterLevel < CRITICAL_WATER_LEVEL ∨ waterQuality < CRITICAL_WATER_QUALITY then
    SystemStatus.Critical
  else if waterLevel < LOW_WATER_LEVEL ∨ waterQuality < MEDIUM_WATER_QUALITY then
    SystemStatus.Concerning
  else
    SystemStatus.Normal

/-- From src/unnamed/part_014: the exported pure function
calculateOverallSystemStatus exercised by the repository test files
(src/unnamed/part_019 and part_020).  It uses the NON-strict comparison
waterLevel <= LOW_WATER_LEVEL in the second test. -/
def calculateOverallSystemStatus (waterLevel waterQuality : ℚ) : SystemStatus :=
  if waterLevel < CRITICAL_WATER_LEVEL ∨ waterQuality < CRITICAL_WATER_QUALITY then
    SystemStatus.Critical
  else if waterLevel ≤ LOW_WATER_LEVEL ∨ waterQuality < MEDIUM_WATER_QUALITY then
    SystemStatus.Concerning
  else
    SystemStatus.Normal

/-! Purification stream, from src/unnamed/part_019 lines 4-24
(useWaterPurification): dam emissions are filtered by level > 20, scaled by a
random efficiency 0.5 + rand * 0.3, then metered by mergeMap over
interval(1000).take(5) into 5 emissions of (level * efficiency) / 5 each, and
finally accumulated by scan((acc, value) => acc + value, 0). -/

def purifEfficiency (rand : ℚ) : ℚ := 1/2 + rand * (3/10)

/-- The sub-step emissions contributed to the purification scan by one dam
emission of the given level with the given sampled efficiency. -/
def purifEmissions (level efficiency : ℚ) : List ℚ :=
  if level > 20 then List.replicate 5 (level * efficiency / 5) else []

/-- The scan accumulator after folding a list of emissions into acc. -/
def purifAccumulate (acc : ℚ) (emissions : List ℚ) : ℚ :=
  emissions.foldl (fun a v => a + v) acc

/-! A model of JavaScript IEEE-754 double values adequate for the NaN and
division-by-zero behaviour of the code: exact rationals extended with NaN and
the two infinities.  Rounding is not modelled (irrelevant to the claims, which
are about NaN creation and propagation); negative zero is identified with
zero. -/

inductive JSNum
  | nan
  | posInf
  | negInf
  | num (q : ℚ)
deriving DecidableEq

/-- JavaScript addition on the JSNum model. -/
def jsAdd : JSNum → JSNum → JSNum
  | JSNum.nan, _ => JSNum.nan
  | _, JSNum.nan => JSNum.nan
  | JSNum.posInf, JSNum.negInf => JSNum.nan
  | JSNum.negInf, JSNum.posInf => JSNum.nan
  | JSNum.posInf, _ => JSNum.posInf
  | _, JSNum.posInf => JSNum.posInf
  | JSNum.negInf, _ => JSNum.negInf
  | _, JSNum.negInf => JSNum.negInf
  | JSNum.num a, JSNum.num b => JSNum.num (a + b)

/-- JavaScript multiplication on the JSNum model. -/
def jsMul : JSNum → JSNum → JSNum
  | JSNum.nan, _ => JSNum.nan
  | _, JSNum.nan => JSNum.nan
  | JSNum.posInf, JSNum.posInf => JSNum.posInf
  | JSNum.posInf, JSNum.negInf => JSNum.negInf
  | JSNum.negInf, JSNum.posInf => JSNum.negInf
  | JSNum.negInf, JSNum.negInf => JSNum.posInf
  | JSNum.posInf, JSNum.num b =>
      if b = 0 then JSNum.nan else if 0 < b then JSNum.posInf else JSNum.negInf
  | JSNum.num a, JSNum.posInf =>
      if a = 0 then JSNum.nan else if 0 < a then JSNum.posInf else JSNum.negInf
  | JSNum.negInf, JSNum.num b =>
      if b = 0 then JSNum.nan else if 0 < b then JSNum.negInf else JSNum.posInf
  | JSNum.num a, JSNum.negInf =>
      if a = 0 then JSNum.nan else if 0 < a then JSNum.negInf else JSNum.posInf
  | JSNum.num a, JSNum.num b => JSNum.num (a * b)

/-- JavaScript division on the JSNum model: 0/0 is NaN, x/0 for x positive is
+Infinity and for x negative is -Infinity; finite/infinite is 0. -/
def jsDiv : JSNum → JSNum → JSNum
  | JSNum.nan, _ => JSNum.nan
  | _, JSNum.nan => JSNum.nan
  | JSNum.posInf, JSNum.posInf => JSNum.nan
  | JSNum.posInf, JSNum.negInf => JSNum.nan
  | JSNum.negInf, JSNum.posInf => JSNum.nan
  | JSNum.negInf, JSNum.negInf => JSNum.nan
  | JSNum.posInf, JSNum.num b => if 0 ≤ b then JSNum.posInf else JSNum.negInf
  | JSNum.negInf, JSNum.num b => if 0 ≤ b then JSNum.negInf else JSNum.posInf
  | JSNum.num _, JSNum.posInf => JSNum.num 0
  | JSNum.num _, JSNum.negInf => JSNum.num 0
  | JSNum.num a, JSNum.num b =>
      if b = 0 then
        if a = 0 then JSNum.nan else if 0 < a then JSNum.posInf else JSNum.negInf
      else JSNum.num (a / b)

/-- JavaScript Math.min: NaN if either argument is NaN. -/
def jsMin : JSNum → JSNum → JSNum
  | JSNum.nan, _ => JSNum.nan
  | _, JSNum.nan => JSNum.nan
  | JSNum.negInf, _ => JSNum.negInf
  | _, JSNum.negInf => JSNum.negInf
  | JSNum.posInf, b => b
  | a, JSNum.posInf => a
  | JSNum.num a, JSNum.num b => JSNum.num (min a b)

/-- JavaScript Math.max: NaN if either argument is NaN. -/
def jsMax : JSNum → JSNum → JSNum
  | JSNum.nan, _ => JSNum.nan
  | _, JSNum.nan => JSNum.nan
  | JSNum.posInf, _ => JSNum.posInf
  | _, JSNum.posInf => JSNum.posInf
  | JSNum.negInf, b => b
  | a, JSNum.negInf => a
  | JSNum.num a, JSNum.num b => JSNum.num (max a b)

/-- The water-quality computation of
src/src/composables/water-system/useWaterQualityControl.ts lines 10-18 under
JavaScript number semantics: (purified / (purified + treated)) * 100, times
0.9 when stormy, then Math.max(0, Math.min(100, score)). -/
def jsQualityStep (purified treated : JSNum) (w : Weather) : JSNum :=
  let score1 := jsMul (jsDiv purified (jsAdd purified treated)) (JSNum.num 100)
  let score2 := if w = Weather.stormy then jsMul score1 (JSNum.num (9/10)) else score1
  jsMax (JSNum.num 0) (jsMin (JSNum.num 100) score2)

/-- True exactly when the value is an ordinary number lying in [0, 100]. -/
def jsInRange0100 : JSNum → Bool
  | JSNum.num q => decide (0 ≤ q ∧ q ≤ 100)
  | _ => false

/-- The systemEfficiency computation of
src/src/composables/water-system/useWaterSystem.ts lines 743-753 under
JavaScript number semantics: if processedWater === 0 return 0, else
(purifiedWater / processedWater) * 100. -/
def jsSystemEfficiency (purifiedWater waterDistributed : JSNum) : JSNum :=
  let processedWater := jsAdd purifiedWater waterDistributed
  if processedWater = JSNum.num 0 then JSNum.num 0
  else jsMul (jsDiv purifiedWater processedWater) (JSNum.num 100)

/-! Orchestrator state model, from
src/src/composables/water-system/useWaterSystem.ts.  The reactive state record
is modelled with the fields the claims are about; the stream subscriptions of
manageSubscriptions (lines 479-533) become events carrying the upstream stream
values as free parameters.  The Vue watch on state.waterLevel (lines 799-804)
is modelled as a deferred synchronisation applied after the event whenever the
waterLevel value actually changed, which is when a Vue watcher fires. -/

structure SysState where
  waterLevel : ℚ
  waterQuality : ℚ
  floodRisk : ℚ
  damWaterVolume : ℚ
  purifiedWater : ℚ
  waterDistributed : ℚ
  isManualMode : Bool
  manualWaterLevel : ℚ
deriving DecidableEq

/-- Initial state, from the reactive initialiser at useWaterSystem.ts lines
132-149 (fields drawn from waterSystemConfig) together with
isManualMode = false (line 325) and manualWaterLevel = INITIAL_WATER_LEVEL
(line 317). -/
def initState : SysState where
  waterLevel := INITIAL_DAM_WATER_LEVEL
  waterQuality := INITIAL_WATER_QUALITY
  floodRisk := INITIAL_FLOOD_RISK
  damWaterVolume := INITIAL_DAM_WATER_VOLUME
  purifiedWater := 0
  waterDistributed := 0
  isManualMode := false
  manualWaterLevel := INITIAL_WATER_LEVEL

/-- Events acting on the orchestrator state: one per stream subscription that
writes a claim-relevant field, plus the exposed control functions.  Stream
input values (upstream levels, weather, random samples) are free parameters
of the event. -/
inductive Event
  | damTick (level : ℚ) (w : Weather) (glacierWaterFlow : ℚ) (rand : ℚ)
  | qualityTick (purified treated : ℚ) (w : Weather)
  | floodTick (level : ℚ) (w : Weather)
  | purificationEmit (v : ℚ)
  | distributionEmit (v : ℚ)
  | setWaterLevel (level : ℚ)
  | toggleManualMode
  | resetSystem
deriving DecidableEq

/-- The Vue watch of useWaterSystem.ts lines 799-804: whenever state.waterLevel
changed, state.damWaterVolume is set to (newWaterLevel / 100) *
INITIAL_DAM_WATER_VOLUME.  Vue watchers run after the synchronous update that
triggered them, and only when the watched value actually changed. -/
def syncDamVolume (old new : SysState) : SysState :=
  if new.waterLevel ≠ old.waterLevel then
    { new with damWaterVolume := new.waterLevel / 100 * INITIAL_DAM_WATER_VOLUME }
  else new

/-- The synchronous part of one event step.

damTick: manageSubscriptions case dam$ (lines 481-486) writes waterLevel only
when not in manual mode.  qualityTick, floodTick, purificationEmit,
distributionEmit: cases waterQualityControl$, floodPrediction$,
purificationPlant$, waterDistribution$ write the corresponding field.
setWaterLevel (lines 342-347): only in manual mode, writes manualWaterLevel
and state.waterLevel.  toggleManualMode (lines 353-362): flips isManualMode
and on entering manual mode copies state.waterLevel into manualWaterLevel.
resetSystem (lines 564-586): restores the initial field values (it does not
touch isManualMode). -/
def applyPrimary (s : SysState) (e : Event) : SysState :=
  match e with
  | Event.damTick level w flow rand =>
      if s.isManualMode then s
      else { s with waterLevel := damStep level w flow rand }
  | Event.qualityTick p t w => { s with waterQuality := qualityStep p t w }
  | Event.floodTick level w => { s with floodRisk := floodStep level w }
  | Event.purificationEmit v => { s with purifiedWater := v }
  | Event.distributionEmit v => { s with waterDistributed := v }
  | Event.setWaterLevel level =>
      if s.isManualMode then
        { s with manualWaterLevel := level, waterLevel := level }
      else s
  | Event.toggleManualMode =>
      if s.isManualMode then { s with isManualMode := false }
      else { s with isManualMode := true, manualWaterLevel := s.waterLevel }
  | Event.resetSystem =>
      { s with
        waterLevel := INITIAL_DAM_WATER_LEVEL
        waterQuality := INITIAL_WATER_QUALITY
        floodRisk := INITIAL_FLOOD_RISK
        damWaterVolume := INITIAL_DAM_WATER_VOLUME
        purifiedWater := 0
        waterDistributed := 0 }

/-- One event step: the synchronous update followed by the deferred
waterLevel watcher. -/
def applyEvent (s : SysState) (e : Event) : SysState :=
  syncDamVolume s (applyPrimary s e)

/-- Run a sequence of events from the initial state. -/
def runEvents (evs : List Event) : SysState :=
  evs.foldl applyEvent initState

/-- Derived aggregate, from useWaterSystem.ts lines 734-740: the cached
computation state.purifiedWater + state.waterDistributed. -/
def totalWaterProcessed (s : SysState) : ℚ :=
  s.purifiedWater + s.waterDistributed

/-- Derived aggregate, from useWaterSystem.ts lines 743-753: 0 when the
processed total is 0, otherwise (purifiedWater / processedWater) * 100. -/
def systemEfficiency (s : SysState) : ℚ :=
  if totalWaterProcessed s = 0 then 0
  else s.purifiedWater / totalWaterProcessed s * 100

/-- Bool guard used to state the amended range invariant: setWaterLevel events
must carry a level inside [0, 100]; every other event is unrestricted. -/
def eventOkB : Event → Bool
  | Event.setWaterLevel level => decide (0 ≤ level ∧ level ≤ 100)
  | _ => true

/-! Alert system, from src/src/composables/water-system/useAlertSystem.ts
(the variant with the alertMap, lines 9-71).

The queue is a PriorityQueue from the library datastructures-js/priority-queue
with comparator (lines 10-16): by priority descending (high 3, medium 2,
low 1), then by timestamp descending (most recent first); dequeue removes the
front element (the one the comparator sorts first) and toArray lists the
elements in comparator order.  The queue is modelled as a list kept in
comparator order: enqueue places the new element before the first element it
strictly precedes (equal-ranked elements keep the earlier element first, as
the binary heap sift-up does), dequeue removes the list head, and toArray is
the list itself.  Mutating a stored entry (the merge path below) does not
re-position it, exactly as mutating an object stored in the binary heap does
not re-sift the heap.

Timestamps are natural numbers standing for the second-resolution timestamp
strings that the code compares via Date.getTime.  The Map key
priority-dash-message is modelled as the pair (priority, message), which
coincides with string-key equality because the three priority prefixes are
distinct and dash-free. -/

inductive Priority
  | high
  | medium
  | low
deriving DecidableEq

/-- The priorityOrder table of the comparator (line 11). -/
def priorityOrder : Priority → Nat
  | Priority.high => 3
  | Priority.medium => 2
  | Priority.low => 1

/-- A queued alert after grouping: message, priority, timestamp and repeat
count (the Alert record of src/src/types/waterSystem.ts extended with count,
as in groupSimilarAlerts; the random uuid field plays no role in any claim
and is omitted). -/
structure GAlert where
  message : String
  priority : Priority
  timestamp : Nat
  count : Nat
deriving DecidableEq

abbrev AlertKey := Priority × String

/-- The dedup key of an alert (the template string priority-message of
lines 39 and 48). -/
def GAlert.key (a : GAlert) : AlertKey := (a.priority, a.message)

/-- The comparator of lines 10-16, as the strict precede-relation: a comes
before b when a has the larger priorityOrder, or equal priority and the more
recent timestamp. -/
def qBefore (a b : GAlert) : Bool :=
  if priorityOrder a.priority ≠ priorityOrder b.priority then
    decide (priorityOrder b.priority < priorityOrder a.priority)
  else
    decide (b.timestamp < a.timestamp)

/-- Enqueue into the comparator-ordered list: the new element goes before the
first element it strictly precedes, hence after any equal-ranked ones. -/
def insertQ (g : GAlert) : List GAlert → List GAlert
  | [] => [g]
  | b :: bs => if qBefore g b then g :: b :: bs else b :: insertQ g bs

/-- The state owned by one useAlertSystem instance: the priority queue (as an
ordered list, front first) and the alertMap (as an association list in Map
insertion order; JavaScript Map keys are unique). -/
structure AlertState where
  queue : List GAlert
  alertMap : List (AlertKey × GAlert)
deriving DecidableEq

def AlertState.empty : AlertState := { queue := [], alertMap := [] }

/-- Map.get: the value of the first (hence only) entry with the key. -/
def mapLookup (k : AlertKey) : List (AlertKey × GAlert) → Option GAlert
  | [] => none
  | e :: es => if e.1 = k then some e.2 else mapLookup k es

/-- In-place mutation of the map entry with key k (the JavaScript code mutates
the stored object; the key and position are unchanged). -/
def mapUpdate (k : AlertKey) (g : GAlert) :
    List (AlertKey × GAlert) → List (AlertKey × GAlert)
  | [] => []
  | e :: es => if e.1 = k then (k, g) :: es else e :: mapUpdate k g es

/-- Map.delete: removes the (unique) entry with key k. -/
def mapErase (k : AlertKey) :
    List (AlertKey × GAlert) → List (AlertKey × GAlert)
  | [] => []
  | e :: es => if e.1 = k then es else e :: mapErase k es

/-- In-place mutation of the queue entry with key k: same list positions, the
entry with key k replaced by g (the code mutates the shared object, so the
heap contents change without any re-sift). -/
def queueUpdate (k : AlertKey) (g : GAlert) : List GAlert → List GAlert
  | [] => []
  | b :: bs => if b.key = k then g :: bs else b :: queueUpdate k g bs

/-- Result of groupSimilarAlerts: the possibly-mutated state and the grouped
alert the function returns. -/
structure GroupResult where
  state : AlertState
  grouped : GAlert

/-- groupSimilarAlerts (lines 47-60): look the key up in alertMap; if present,
increment its count and refresh its timestamp in place (the object is shared
between map and queue, so both change); otherwise record a fresh entry with
count 1 in the map. -/
def groupSimilarAlerts (s : AlertState) (message : String) (p : Priority)
    (t : Nat) : GroupResult :=
  let k : AlertKey := (p, message)
  match mapLookup k s.alertMap with
  | some existing =>
      let merged : GAlert :=
        { existing with count := existing.count + 1, timestamp := t }
      { state :=
          { queue := queueUpdate k merged s.queue
            alertMap := mapUpdate k merged s.alertMap }
        grouped := merged }
  | none =>
      let g : GAlert := { message := message, priority := p, timestamp := t, count := 1 }
      { state := { queue := s.queue, alertMap := s.alertMap ++ [(k, g)] }
        grouped := g }

def MAX_ALERTS : Nat := 1000

/-- addAlert (lines 23-45): group the new alert; only a fresh alert
(count = 1) is enqueued; when the queue size then exceeds MAX_ALERTS, one
dequeue removes the queue front and its key is deleted from the map. -/
def addAlert (s : AlertState) (message : String) (p : Priority) (t : Nat) :
    AlertState :=
  let r := groupSimilarAlerts s message p t
  if r.grouped.count = 1 then
    let q := insertQ r.grouped r.state.queue
    if MAX_ALERTS < q.length then
      match q with
      | [] => { queue := q, alertMap := r.state.alertMap }
      | removed :: rest =>
          { queue := rest, alertMap := mapErase removed.key r.state.alertMap }
    else { queue := q, alertMap := r.state.alertMap }
  else r.state

/-- The alerts computed property (lines 62-65): Array.from(alertQueue.toArray()),
the queue contents in comparator order. -/
def snapshot (s : AlertState) : List GAlert := s.queue

/-- An addAlert call: its message, priority and the timestamp of the call. -/
structure AddReq where
  message : String
  priority : Priority
  timestamp : Nat
deriving DecidableEq

def AddReq.key (r : AddReq) : AlertKey := (r.priority, r.message)

def runAddsFrom (s : AlertState) (reqs : List AddReq) : AlertState :=
  reqs.foldl (fun acc r => addAlert acc r.message r.priority r.timestamp) s

/-- The alert state after a sequence of addAlert calls on a fresh instance. -/
def runAdds (reqs : List AddReq) : AlertState :=
  runAddsFrom AlertState.empty reqs

def keysOfQ (q : List GAlert) : List AlertKey := q.map GAlert.key

def keysOfM (m : List (AlertKey × GAlert)) : List AlertKey := m.map Prod.fst

/-- Well-formedness tying queue and map together: keys are unique on both
sides, every queued alert is in the map under its key, and every map entry is
a queued alert keyed consistently.  This is the invariant the shared-object
mutation discipline of the source maintains. -/
def Inv (s : AlertState) : Prop :=
  (keysOfQ s.queue).Nodup ∧
  (keysOfM s.alertMap).Nodup ∧
  (∀ g ∈ s.queue, (g.key, g) ∈ s.alertMap) ∧
  (∀ e ∈ s.alertMap, e.2 ∈ s.queue ∧ e.2.key = e.1) ∧
  (∀ g ∈ s.queue, 1 ≤ g.count)

/-- Queue entries with the given key. -/
def entriesWithKey (k : AlertKey) (q : List GAlert) : List GAlert :=
  q.filter (fun g => decide (g.key = k))

/-- Snapshot ordering by priority alone: high blocks before medium blocks
before low blocks. -/
def PrioSorted (q : List GAlert) : Prop :=
  q.Pairwise (fun a b => priorityOrder b.priority ≤ priorityOrder a.priority)

/-- Full snapshot ordering: no later entry strictly precedes an earlier one
under the queue comparator (priority descending, then most recent first). -/
def RankSorted (q : List GAlert) : Prop :=
  q.Pairwise (fun a b => qBefore b a = false)

/-- The state holding exactly one grouped alert. -/
def singleState (m : String) (p : Priority) (t : Nat) (c : Nat) : AlertState :=
  { queue := [⟨m, p, t, c⟩], alertMap := [((p, m), ⟨m, p, t, c⟩)] }

/-! A concrete full queue for the eviction claim: 1000 distinct low-priority
alerts, timestamps 1000 down to 1 (so the queue is in comparator order and
the entry with timestamp 1 is the lowest-ranked of all).  Reached by adding
the 1000 alerts oldest-first to a fresh instance. -/

set_option maxRecDepth 16384

def msgF (i : Nat) : String := String.mk (List.replicate (i + 1) 'a')

def entryF (i : Nat) : GAlert :=
  { message := msgF i, priority := Priority.low, timestamp := 1000 - i, count := 1 }

def fullQueue : List GAlert := (List.range 1000).map entryF

def fullMap : List (AlertKey × GAlert) := fullQueue.map (fun g => (g.key, g))

def fullState1000 : AlertState := { queue := fullQueue, alertMap := fullMap }

/-- The three percentage fields of the claimed invariant lie in [0, 100]. -/
def StateInRange (s : SysState) : Prop :=
  (0 ≤ s.waterLevel ∧ s.waterLevel ≤ 100) ∧
  (0 ≤ s.waterQuality ∧ s.waterQuality ≤ 100) ∧
  (0 ≤ s.floodRisk ∧ s.floodRisk ≤ 100)

instance (q : List GAlert) : Decidable (PrioSorted q) := by
  unfold PrioSorted
  infer_instance

instance (q : List GAlert) : Decidable (RankSorted q) := by
  unfold RankSorted
  infer_instance

instance (s : AlertState) : Decidable (Inv s) := by
  unfold Inv
  infer_instance

/-! Lemmas about the queue comparator. -/

theorem qBefore_true_iff (a b : GAlert) :
    qBefore a b = true ↔
      priorityOrder b.priority < priorityOrder a.priority ∨
      (priorityOrder a.priority = priorityOrder b.priority ∧
        b.timestamp < a.timestamp) := by
  unfold qBefore
  by_cases h : priorityOrder a.priority = priorityOrder b.priority <;> simp [h]

theorem qBefore_false_iff (a b : GAlert) :
    qBefore a b = false ↔
      priorityOrder a.priority < priorityOrder b.priority ∨
      (priorityOrder a.priority = priorityOrder b.priority ∧
        a.timestamp ≤ b.timestamp) := by
  rw [← Bool.not_eq_true, qBefore_true_iff]
  omega

theorem qBefore_asymm {a b : GAlert} (h : qBefore a b = true) :
    qBefore b a = false := by
  rw [qBefore_true_iff] at h
  rw [qBefore_false_iff]
  omega

theorem qBefore_irrefl (a : GAlert) : qBefore a a = false := by
  rw [qBefore_false_iff]
  omega

theorem qBefore_false_of_false_of_true {x b g : GAlert}
    (h1 : qBefore x b = false) (h2 : qBefore g b = true) :
    qBefore x g = false := by
  rw [qBefore_false_iff] at h1 ⊢
  rw [qBefore_true_iff] at h2
  omega

/-! Lemmas about insertQ. -/

theorem mem_insertQ (g x : GAlert) (l : List GAlert) :
    x ∈ insertQ g l ↔ x = g ∨ x ∈ l := by
  induction l with
  | nil => simp [insertQ]
  | cons b bs ih =>
      unfold insertQ
      split
      · simp
      · simp only [List.mem_cons, ih]
        tauto

theorem insertQ_length (g : GAlert) (l : List GAlert) :
    (insertQ g l).length = l.length + 1 := by
  induction l with
  | nil => rfl
  | cons b bs ih =>
      unfold insertQ
      split
      · rfl
      · simp only [List.length_cons, ih]

theorem insertQ_perm (g : GAlert) (l : List GAlert) :
    List.Perm (insertQ g l) (g :: l) := by
  induction l with
  | nil => exact List.Perm.refl _
  | cons b bs ih =>
      unfold insertQ
      split
      · exact List.Perm.refl _
      · exact List.Perm.trans (List.Perm.cons b ih) (List.Perm.swap g b bs)

theorem insertQ_front (g : GAlert) (l : List GAlert)
    (h : ∀ b ∈ l, qBefore g b = true) : insertQ g l = g :: l := by
  cases l with
  | nil => rfl
  | cons b bs =>
      unfold insertQ
      rw [if_pos (h b (List.mem_cons_self b bs))]

theorem RankSorted_insertQ (g : GAlert) (l : List GAlert)
    (h : RankSorted l) : RankSorted (insertQ g l) := by
  induction l with
  | nil =>
      unfold RankSorted insertQ
      exact List.pairwise_singleton _ g
  | cons b bs ih =>
      unfold RankSorted at h ⊢
      rw [List.pairwise_cons] at h
      unfold insertQ
      split
      · rename_i hgb
        rw [List.pairwise_cons]
        refine ⟨?_, List.pairwise_cons.mpr h⟩
        intro x hx
        rcases List.mem_cons.mp hx with hxb | hxbs
        · subst hxb
          exact qBefore_asymm hgb
        · exact qBefore_false_of_false_of_true (h.1 x hxbs) hgb
      · rename_i hgb
        rw [List.pairwise_cons]
        have hbs := ih h.2
        refine ⟨?_, hbs⟩
        intro x hx
        rcases (mem_insertQ g x bs).mp hx with hxg | hxbs
        · subst hxg
          exact Bool.eq_false_iff.mpr hgb
        · exact h.1 x hxbs

/-! Lemmas about the alertMap association list. -/

theorem mapLookup_eq_none_iff (k : AlertKey) (m : List (AlertKey × GAlert)) :
    mapLookup k m = none ↔ ∀ e ∈ m, e.1 ≠ k := by
  induction m with
  | nil => simp [mapLookup]
  | cons e es ih =>
      simp only [mapLookup]
      by_cases h : e.1 = k
      · simp [h]
      · simp [h, ih]

theorem mapLookup_some_mem {k : AlertKey} {m : List (AlertKey × GAlert)}
    {g : GAlert} (h : mapLookup k m = some g) : (k, g) ∈ m := by
  induction m with
  | nil => exact absurd h (by simp [mapLookup])
  | cons e es ih =>
      simp only [mapLookup] at h
      by_cases he : e.1 = k
      · rw [if_pos he] at h
        have h2 : e.2 = g := Option.some.inj h
        have he2 : e = (k, g) := by rw [← he, ← h2]
        rw [← he2]
        exact List.mem_cons_self e es
      · rw [if_neg he] at h
        exact List.mem_cons_of_mem e (ih h)

theorem mapErase_sublist (k : AlertKey) (m : List (AlertKey × GAlert)) :
    List.Sublist (mapErase k m) m := by
  induction m with
  | nil => exact List.Sublist.refl []
  | cons e es ih =>
      simp only [mapErase]
      by_cases h : e.1 = k
      · rw [if_pos h]
        exact List.Sublist.cons e (List.Sublist.refl es)
      · rw [if_neg h]
        exact List.Sublist.cons₂ e ih

theorem mem_mapErase_of {e : AlertKey × GAlert} {k : AlertKey}
    {m : List (AlertKey × GAlert)} (h : e ∈ m) (hne : e.1 ≠ k) :
    e ∈ mapErase k m := by
  induction m with
  | nil => exact absurd h (List.not_mem_nil e)
  | cons e0 es ih =>
      simp only [mapErase]
      rcases List.mem_cons.mp h with he | he
      · subst he
        rw [if_neg hne]
        exact List.mem_cons_self _ _
      · by_cases h0 : e0.1 = k
        · rw [if_pos h0]
          exact he
        · rw [if_neg h0]
          exact List.mem_cons_of_mem e0 (ih he)

theorem mem_of_mem_mapErase {e : AlertKey × GAlert} {k : AlertKey}
    {m : List (AlertKey × GAlert)} (h : e ∈ mapErase k m) : e ∈ m :=
  (mapErase_sublist k m).mem h

theorem ne_of_mem_mapErase {e : AlertKey × GAlert} {k : AlertKey}
    {m : List (AlertKey × GAlert)} (hnd : (keysOfM m).Nodup)
    (h : e ∈ mapErase k m) : e.1 ≠ k := by
  induction m with
  | nil => exact absurd h (List.not_mem_nil e)
  | cons e0 es ih =>
      have hnd2 : (keysOfM es).Nodup := (List.nodup_cons.mp hnd).2
      have h0nm : e0.1 ∉ keysOfM es := (List.nodup_cons.mp hnd).1
      simp only [mapErase] at h
      by_cases h0 : e0.1 = k
      · rw [if_pos h0] at h
        intro hek
        have hmem : e.1 ∈ keysOfM es := List.mem_map_of_mem Prod.fst h
        rw [hek, ← h0] at hmem
        exact h0nm hmem
      · rw [if_neg h0] at h
        rcases List.mem_cons.mp h with he | he
        · subst he
          exact h0
        · exact ih hnd2 he

theorem mapErase_append_fresh (k : AlertKey) (g : GAlert)
    (m : List (AlertKey × GAlert)) (h : ∀ e ∈ m, e.1 ≠ k) :
    mapErase k (m ++ [(k, g)]) = m := by
  induction m with
  | nil => simp [mapErase]
  | cons e es ih =>
      have he : e.1 ≠ k := h e (List.mem_cons_self e es)
      rw [List.cons_append]
      simp only [mapErase]
      rw [if_neg he, ih (fun x hx => h x (List.mem_cons_of_mem e hx))]

theorem keysOfM_append (m : List (AlertKey × GAlert)) (k : AlertKey)
    (g : GAlert) : keysOfM (m ++ [(k, g)]) = keysOfM m ++ [k] := by
  simp [keysOfM]

theorem keysOfM_mapUpdate (k : AlertKey) (g : GAlert)
    (m : List (AlertKey × GAlert)) :
    keysOfM (mapUpdate k g m) = keysOfM m := by
  induction m with
  | nil => rfl
  | cons e es ih =>
      simp only [mapUpdate]
      by_cases h : e.1 = k
      · rw [if_pos h]
        simp only [keysOfM, List.map_cons, h]
      · rw [if_neg h]
        simp only [keysOfM, List.map_cons] at ih ⊢
        rw [ih]

theorem mem_mapUpdate_of_ne {e : AlertKey × GAlert} {k : AlertKey}
    {g : GAlert} {m : List (AlertKey × GAlert)} (h : e ∈ m) (hne : e.1 ≠ k) :
    e ∈ mapUpdate k g m := by
  induction m with
  | nil => exact absurd h (List.not_mem_nil e)
  | cons e0 es ih =>
      simp only [mapUpdate]
      rcases List.mem_cons.mp h with he | he
      · subst he
        rw [if_neg hne]
        exact List.mem_cons_self _ _
      · by_cases h0 : e0.1 = k
        · rw [if_pos h0]
          exact List.mem_cons_of_mem _ he
        · rw [if_neg h0]
          exact List.mem_cons_of_mem e0 (ih he)

theorem mem_mapUpdate_self {k : AlertKey} {g : GAlert}
    {m : List (AlertKey × GAlert)} (h : k ∈ keysOfM m) :
    (k, g) ∈ mapUpdate k g m := by
  induction m with
  | nil => exact absurd h (List.not_mem_nil k)
  | cons e0 es ih =>
      simp only [mapUpdate]
      by_cases h0 : e0.1 = k
      · rw [if_pos h0]
        exact List.mem_cons_self _ _
      · rw [if_neg h0]
        have hes : k ∈ keysOfM es := by
          rcases List.mem_cons.mp h with he | he
          · exact absurd he.symm h0
          · exact he
        exact List.mem_cons_of_mem e0 (ih hes)

theorem mem_mapUpdate_elim {e : AlertKey × GAlert} {k : AlertKey} {g : GAlert}
    {m : List (AlertKey × GAlert)} (hnd : (keysOfM m).Nodup)
    (h : e ∈ mapUpdate k g m) :
    (e = (k, g) ∧ k ∈ keysOfM m) ∨ (e ∈ m ∧ e.1 ≠ k) := by
  induction m with
  | nil => exact absurd h (List.not_mem_nil e)
  | cons e0 es ih =>
      have hnd2 : (keysOfM es).Nodup := (List.nodup_cons.mp hnd).2
      have h0nm : e0.1 ∉ keysOfM es := (List.nodup_cons.mp hnd).1
      simp only [mapUpdate] at h
      by_cases h0 : e0.1 = k
      · rw [if_pos h0] at h
        rcases List.mem_cons.mp h with he | he
        · refine Or.inl ⟨he, ?_⟩
          rw [← h0]
          exact List.mem_map_of_mem Prod.fst (List.mem_cons_self e0 es)
        · refine Or.inr ⟨List.mem_cons_of_mem e0 he, ?_⟩
          intro hek
          have hmem : e.1 ∈ keysOfM es := List.mem_map_of_mem Prod.fst he
          rw [hek, ← h0] at hmem
          exact h0nm hmem
      · rw [if_neg h0] at h
        rcases List.mem_cons.mp h with he | he
        · subst he
          exact Or.inr ⟨List.mem_cons_self e es, h0⟩
        · rcases ih hnd2 he with ⟨h1, h2⟩ | ⟨h1, h2⟩
          · exact Or.inl ⟨h1, List.mem_cons_of_mem e0.1 h2⟩
          · exact Or.inr ⟨List.mem_cons_of_mem e0 h1, h2⟩

/-! Lemmas about queueUpdate. -/

theorem keysOfQ_queueUpdate {k : AlertKey} {g : GAlert} (q : List GAlert)
    (hk : g.key = k) : keysOfQ (queueUpdate k g q) = keysOfQ q := by
  induction q with
  | nil => rfl
  | cons b bs ih =>
      simp only [queueUpdate]
      by_cases h : b.key = k
      · rw [if_pos h]
        simp only [keysOfQ, List.map_cons, hk, h]
      · rw [if_neg h]
        simp only [keysOfQ, List.map_cons] at ih ⊢
        rw [ih]

theorem queueUpdate_length (k : AlertKey) (g : GAlert) (q : List GAlert) :
    (queueUpdate k g q).length = q.length := by
  induction q with
  | nil => rfl
  | cons b bs ih =>
      simp only [queueUpdate]
      by_cases h : b.key = k
      · rw [if_pos h]
        simp
      · rw [if_neg h]
        simp [ih]

theorem mem_queueUpdate_of_ne {x : GAlert} {k : AlertKey} {g : GAlert}
    {q : List GAlert} (h : x ∈ q) (hne : x.key ≠ k) :
    x ∈ queueUpdate k g q := by
  induction q with
  | nil => exact absurd h (List.not_mem_nil x)
  | cons b bs ih =>
      simp only [queueUpdate]
      rcases List.mem_cons.mp h with he | he
      · subst he
        rw [if_neg hne]
        exact List.mem_cons_self _ _
      · by_cases h0 : b.key = k
        · rw [if_pos h0]
          exact List.mem_cons_of_mem _ he
        · rw [if_neg h0]
          exact List.mem_cons_of_mem b (ih he)

theorem mem_queueUpdate_self {k : AlertKey} {g : GAlert} {q : List GAlert}
    (h : k ∈ keysOfQ q) : g ∈ queueUpdate k g q := by
  induction q with
  | nil => exact absurd h (List.not_mem_nil k)
  | cons b bs ih =>
      simp only [queueUpdate]
      by_cases h0 : b.key = k
      · rw [if_pos h0]
        exact List.mem_cons_self _ _
      · rw [if_neg h0]
        have hbs : k ∈ keysOfQ bs := by
          rcases List.mem_cons.mp h with he | he
          · exact absurd he.symm h0
          · exact he
        exact List.mem_cons_of_mem b (ih hbs)

theorem mem_queueUpdate_elim {x : GAlert} {k : AlertKey} {g : GAlert}
    {q : List GAlert} (hnd : (keysOfQ q).Nodup) (h : x ∈ queueUpdate k g q) :
    (x = g ∧ k ∈ keysOfQ q) ∨ (x ∈ q ∧ x.key ≠ k) := by
  induction q with
  | nil => exact absurd h (List.not_mem_nil x)
  | cons b bs ih =>
      have hnd2 : (keysOfQ bs).Nodup := (List.nodup_cons.mp hnd).2
      have h0nm : b.key ∉ keysOfQ bs := (List.nodup_cons.mp hnd).1
      simp only [queueUpdate] at h
      by_cases h0 : b.key = k
      · rw [if_pos h0] at h
        rcases List.mem_cons.mp h with he | he
        · refine Or.inl ⟨he, ?_⟩
          rw [← h0]
          exact List.mem_map_of_mem GAlert.key (List.mem_cons_self b bs)
        · refine Or.inr ⟨List.mem_cons_of_mem b he, ?_⟩
          intro hek
          have hmem : x.key ∈ keysOfQ bs := List.mem_map_of_mem GAlert.key he
          rw [hek, ← h0] at hmem
          exact h0nm hmem
      · rw [if_neg h0] at h
        rcases List.mem_cons.mp h with he | he
        · subst he
          exact Or.inr ⟨List.mem_cons_self x bs, h0⟩
        · rcases ih hnd2 he with ⟨h1, h2⟩ | ⟨h1, h2⟩
          · exact Or.inl ⟨h1, List.mem_cons_of_mem b.key h2⟩
          · exact Or.inr ⟨List.mem_cons_of_mem b h1, h2⟩

theorem mem_queueUpdate_weak {x : GAlert} {k : AlertKey} {g : GAlert}
    {q : List GAlert} (h : x ∈ queueUpdate k g q) :
    (x = g ∧ ∃ y ∈ q, y.key = k) ∨ x ∈ q := by
  induction q with
  | nil => exact absurd h (List.not_mem_nil x)
  | cons b bs ih =>
      simp only [queueUpdate] at h
      by_cases h0 : b.key = k
      · rw [if_pos h0] at h
        rcases List.mem_cons.mp h with he | he
        · exact Or.inl ⟨he, b, List.mem_cons_self b bs, h0⟩
        · exact Or.inr (List.mem_cons_of_mem b he)
      · rw [if_neg h0] at h
        rcases List.mem_cons.mp h with he | he
        · subst he
          exact Or.inr (List.mem_cons_self x bs)
        · rcases ih he with ⟨h1, y, hy, hyk⟩ | h1
          · exact Or.inl ⟨h1, y, List.mem_cons_of_mem b hy, hyk⟩
          · exact Or.inr (List.mem_cons_of_mem b h1)

theorem PrioSorted_queueUpdate {k : AlertKey} {g : GAlert} {q : List GAlert}
    (hk : g.priority = k.1) (h : PrioSorted q) :
    PrioSorted (queueUpdate k g q) := by
  induction q with
  | nil => exact h
  | cons b bs ih =>
      unfold PrioSorted at h ⊢
      rw [List.pairwise_cons] at h
      simp only [queueUpdate]
      by_cases h0 : b.key = k
      · rw [if_pos h0]
        rw [List.pairwise_cons]
        have hbp : b.priority = k.1 := by rw [← h0]; rfl
        refine ⟨?_, h.2⟩
        intro x hx
        rw [hk, ← hbp]
        exact h.1 x hx
      · rw [if_neg h0]
        rw [List.pairwise_cons]
        refine ⟨?_, ih h.2⟩
        intro x hx
        rcases mem_queueUpdate_weak hx with ⟨h1, y, hy, hyk⟩ | h1
        · subst h1
          have hyp : y.priority = k.1 := by rw [← hyk]; rfl
          rw [hk, ← hyp]
          exact h.1 y hy
        · exact h.1 x h1

theorem prio_le_of_qBefore_false {g b : GAlert} (h : qBefore g b = false) :
    priorityOrder g.priority ≤ priorityOrder b.priority := by
  rw [qBefore_false_iff] at h
  omega

theorem prio_ge_of_qBefore_true {g b : GAlert} (h : qBefore g b = true) :
    priorityOrder b.priority ≤ priorityOrder g.priority := by
  rw [qBefore_true_iff] at h
  omega

theorem PrioSorted_insertQ (g : GAlert) (l : List GAlert)
    (h : PrioSorted l) : PrioSorted (insertQ g l) := by
  induction l with
  | nil =>
      unfold PrioSorted insertQ
      exact List.pairwise_singleton _ g
  | cons b bs ih =>
      unfold PrioSorted at h ⊢
      rw [List.pairwise_cons] at h
      unfold insertQ
      split
      · rename_i hgb
        rw [List.pairwise_cons]
        refine ⟨?_, List.pairwise_cons.mpr h⟩
        intro x hx
        have hbg : priorityOrder b.priority ≤ priorityOrder g.priority :=
          prio_ge_of_qBefore_true hgb
        rcases List.mem_cons.mp hx with hxb | hxbs
        · subst hxb
          exact hbg
        · exact le_trans (h.1 x hxbs) hbg
      · rename_i hgb
        rw [List.pairwise_cons]
        have hgb2 : qBefore g b = false := Bool.eq_false_iff.mpr hgb
        refine ⟨?_, ih h.2⟩
        intro x hx
        rcases (mem_insertQ g x bs).mp hx with hxg | hxbs
        · subst hxg
          exact prio_le_of_qBefore_false hgb2
        · exact h.1 x hxbs

/-! Characterisation of the two addAlert paths. -/

theorem addAlert_merge {s : AlertState} {m : String} {p : Priority} {t : Nat}
    {g : GAlert} (hm : mapLookup (p, m) s.alertMap = some g)
    (hc : 1 ≤ g.count) :
    addAlert s m p t =
      { queue := queueUpdate (p, m)
          { g with count := g.count + 1, timestamp := t } s.queue
        alertMap := mapUpdate (p, m)
          { g with count := g.count + 1, timestamp := t } s.alertMap } := by
  simp only [addAlert, groupSimilarAlerts, hm]
  rw [if_neg (by simp; omega)]

theorem addAlert_fresh_small {s : AlertState} {m : String} {p : Priority}
    {t : Nat} (hm : mapLookup (p, m) s.alertMap = none)
    (hlen : (insertQ ⟨m, p, t, 1⟩ s.queue).length ≤ MAX_ALERTS) :
    addAlert s m p t =
      { queue := insertQ ⟨m, p, t, 1⟩ s.queue
        alertMap := s.alertMap ++ [((p, m), ⟨m, p, t, 1⟩)] } := by
  simp only [addAlert, groupSimilarAlerts, hm]
  rw [if_pos trivial, if_neg (not_lt.mpr hlen)]

theorem addAlert_fresh_evict {s : AlertState} {m : String} {p : Priority}
    {t : Nat} {removed : GAlert} {rest : List GAlert}
    (hm : mapLookup (p, m) s.alertMap = none)
    (hq : insertQ ⟨m, p, t, 1⟩ s.queue = removed :: rest)
    (hlen : MAX_ALERTS < (insertQ ⟨m, p, t, 1⟩ s.queue).length) :
    addAlert s m p t =
      { queue := rest
        alertMap := mapErase removed.key
          (s.alertMap ++ [((p, m), ⟨m, p, t, 1⟩)]) } := by
  simp only [addAlert, groupSimilarAlerts, hm]
  rw [if_pos trivial, if_pos hlen, hq]

/-! Invariant lemmas. -/

theorem Inv_empty : Inv AlertState.empty := by
  refine ⟨List.nodup_nil, List.nodup_nil, ?_, ?_, ?_⟩ <;> simp [AlertState.empty]

theorem memQ_of_lookup_some {s : AlertState} {k : AlertKey} {g : GAlert}
    (h : Inv s) (hm : mapLookup k s.alertMap = some g) :
    g ∈ s.queue ∧ g.key = k := by
  have hmem : (k, g) ∈ s.alertMap := mapLookup_some_mem hm
  have h4 := h.2.2.2.1 (k, g) hmem
  exact h4

theorem lookup_none_of_not_memQ {s : AlertState} {k : AlertKey}
    (h : Inv s) (hk : k ∉ keysOfQ s.queue) :
    mapLookup k s.alertMap = none := by
  rw [mapLookup_eq_none_iff]
  intro e he hek
  have h4 := h.2.2.2.1 e he
  apply hk
  rw [← hek, ← h4.2]
  exact List.mem_map_of_mem GAlert.key h4.1

theorem not_memQ_of_lookup_none {s : AlertState} {k : AlertKey}
    (h : Inv s) (hm : mapLookup k s.alertMap = none) :
    k ∉ keysOfQ s.queue := by
  rw [mapLookup_eq_none_iff] at hm
  intro hk
  rcases List.mem_map.mp hk with ⟨x, hx, hxk⟩
  exact hm (x.key, x) (h.2.2.1 x hx) (by rw [hxk])

theorem Inv_addAlert (s : AlertState) (m : String) (p : Priority) (t : Nat)
    (h : Inv s) : Inv (addAlert s m p t) := by
  obtain ⟨h1, h2, h3, h4, h5⟩ := h
  cases hm : mapLookup (p, m) s.alertMap with
  | some g =>
      have hgq : g ∈ s.queue ∧ g.key = (p, m) :=
        memQ_of_lookup_some ⟨h1, h2, h3, h4, h5⟩ hm
      have hc : 1 ≤ g.count := h5 g hgq.1
      rw [addAlert_merge hm hc]
      set k : AlertKey := (p, m) with hkdef
      set merged : GAlert := { g with count := g.count + 1, timestamp := t }
        with hmdef
      have hmk : merged.key = k := by rw [← hgq.2]; rfl
      have hkq : k ∈ keysOfQ s.queue := by
        rw [← hgq.2]
        exact List.mem_map_of_mem GAlert.key hgq.1
      have hkm : k ∈ keysOfM s.alertMap :=
        List.mem_map_of_mem Prod.fst (mapLookup_some_mem hm)
      refine ⟨?_, ?_, ?_, ?_, ?_⟩
      · rw [keysOfQ_queueUpdate s.queue hmk]
        exact h1
      · rw [keysOfM_mapUpdate]
        exact h2
      · intro x hx
        rcases mem_queueUpdate_elim h1 hx with ⟨hxg, _⟩ | ⟨hxq, hxk⟩
        · subst hxg
          rw [hmk]
          exact mem_mapUpdate_self hkm
        · exact mem_mapUpdate_of_ne (h3 x hxq) (by rw [show (x.key, x).1 = x.key from rfl]; exact hxk)
      · intro e he
        rcases mem_mapUpdate_elim h2 he with ⟨hekg, _⟩ | ⟨hem, hek⟩
        · subst hekg
          exact ⟨mem_queueUpdate_self hkq, hmk⟩
        · have h4e := h4 e hem
          refine ⟨mem_queueUpdate_of_ne h4e.1 (by rw [h4e.2]; exact hek), h4e.2⟩
      · intro x hx
        rcases mem_queueUpdate_elim h1 hx with ⟨hxg, _⟩ | ⟨hxq, _⟩
        · subst hxg
          simp only [hmdef]
          omega
        · exact h5 x hxq
  | none =>
      have hknm : (p, m) ∉ keysOfM s.alertMap := by
        rw [mapLookup_eq_none_iff] at hm
        intro hk
        rcases List.mem_map.mp hk with ⟨e, he, hek⟩
        exact hm e he hek
      have hknq : (p, m) ∉ keysOfQ s.queue :=
        not_memQ_of_lookup_none ⟨h1, h2, h3, h4, h5⟩ hm
      set g0 : GAlert := ⟨m, p, t, 1⟩ with hg0def
      have hg0k : g0.key = (p, m) := rfl
      have hInv2 : Inv (AlertState.mk (insertQ g0 s.queue)
          (s.alertMap ++ [((p, m), g0)])) := by
        refine ⟨?_, ?_, ?_, ?_, ?_⟩
        · have hperm : List.Perm (keysOfQ (insertQ g0 s.queue))
              (g0.key :: keysOfQ s.queue) := List.Perm.map GAlert.key (insertQ_perm g0 s.queue)
          rw [hperm.nodup_iff]
          rw [List.nodup_cons]
          exact ⟨by rw [hg0k]; exact hknq, h1⟩
        · rw [keysOfM_append]
          refine List.Nodup.append h2 (List.nodup_singleton (p, m)) ?_
          intro a ha hb
          rw [List.mem_singleton] at hb
          subst hb
          exact hknm ha
        · intro x hx
          rcases (mem_insertQ g0 x s.queue).mp hx with hxg | hxq
          · subst hxg
            rw [hg0k]
            exact List.mem_append_right _ (List.mem_singleton.mpr rfl)
          · exact List.mem_append_left _ (h3 x hxq)
        · intro e he
          rcases List.mem_append.mp he with hem | heg
          · have h4e := h4 e hem
            exact ⟨(mem_insertQ g0 e.2 s.queue).mpr (Or.inr h4e.1), h4e.2⟩
          · rw [List.mem_singleton] at heg
            subst heg
            exact ⟨(mem_insertQ g0 g0 s.queue).mpr (Or.inl rfl), rfl⟩
        · intro x hx
          rcases (mem_insertQ g0 x s.queue).mp hx with hxg | hxq
          · subst hxg
            exact le_refl 1
          · exact h5 x hxq
      by_cases hlen : (insertQ g0 s.queue).length ≤ MAX_ALERTS
      · rw [addAlert_fresh_small hm hlen]
        exact hInv2
      · have hlen2 : MAX_ALERTS < (insertQ g0 s.queue).length := not_le.mp hlen
        cases hq : insertQ g0 s.queue with
        | nil =>
            rw [hq] at hlen2
            exact absurd hlen2 (by simp [MAX_ALERTS])
        | cons removed rest =>
            rw [addAlert_fresh_evict hm hq hlen2]
            rw [hq] at hInv2
            obtain ⟨i1, i2, i3, i4, i5⟩ := hInv2
            have hremk : removed.key ∉ keysOfQ rest := by
              have := List.nodup_cons.mp (by exact i1)
              exact this.1
            refine ⟨?_, ?_, ?_, ?_, ?_⟩
            · exact (List.nodup_cons.mp i1).2
            · exact List.Nodup.sublist
                (List.Sublist.map Prod.fst (mapErase_sublist removed.key _)) i2
            · intro x hx
              have hxk : x.key ≠ removed.key := by
                intro hxe
                apply hremk
                rw [← hxe]
                exact List.mem_map_of_mem GAlert.key hx
              exact mem_mapErase_of (i3 x (List.mem_cons_of_mem removed hx)) hxk
            · intro e he
              have hem : e ∈ s.alertMap ++ [((p, m), g0)] := mem_of_mem_mapErase he
              have hek : e.1 ≠ removed.key := ne_of_mem_mapErase i2 he
              have h4e := i4 e hem
              have hne : e.2 ≠ removed := by
                intro hee
                apply hek
                rw [← h4e.2, hee]
              rcases List.mem_cons.mp h4e.1 with hrm | hrest
              · exact absurd hrm hne
              · exact ⟨hrest, h4e.2⟩
            · intro x hx
              exact i5 x (List.mem_cons_of_mem removed hx)

theorem Inv_runAddsFrom (reqs : List AddReq) (s : AlertState) (h : Inv s) :
    Inv (runAddsFrom s reqs) := by
  induction reqs generalizing s with
  | nil => exact h
  | cons r rest ih =>
      exact ih (addAlert s r.message r.priority r.timestamp)
        (Inv_addAlert s r.message r.priority r.timestamp h)

theorem Inv_runAdds (reqs : List AddReq) : Inv (runAdds reqs) :=
  Inv_runAddsFrom reqs AlertState.empty Inv_empty

/-! Ordering preservation through addAlert. -/

theorem priority_eq_of_key {g : GAlert} {p : Priority} {m : String}
    (h : g.key = (p, m)) : g.priority = p := by
  have := congrArg Prod.fst h
  exact this

theorem PrioSorted_addAlert (s : AlertState) (m : String) (p : Priority)
    (t : Nat) (h : Inv s) (hp : PrioSorted s.queue) :
    PrioSorted (addAlert s m p t).queue := by
  cases hm : mapLookup (p, m) s.alertMap with
  | some g =>
      have hgq : g ∈ s.queue ∧ g.key = (p, m) := memQ_of_lookup_some h hm
      have hc : 1 ≤ g.count := h.2.2.2.2 g hgq.1
      rw [addAlert_merge hm hc]
      exact PrioSorted_queueUpdate (priority_eq_of_key hgq.2) hp
  | none =>
      by_cases hlen : (insertQ ⟨m, p, t, 1⟩ s.queue).length ≤ MAX_ALERTS
      · rw [addAlert_fresh_small hm hlen]
        exact PrioSorted_insertQ _ _ hp
      · have hlen2 := not_le.mp hlen
        cases hq : insertQ (⟨m, p, t, 1⟩ : GAlert) s.queue with
        | nil =>
            rw [hq] at hlen2
            exact absurd hlen2 (by simp [MAX_ALERTS])
        | cons removed rest =>
            rw [addAlert_fresh_evict hm hq hlen2]
            have hins : PrioSorted (insertQ (⟨m, p, t, 1⟩ : GAlert) s.queue) :=
              PrioSorted_insertQ _ _ hp
            rw [hq] at hins
            unfold PrioSorted at hins ⊢
            exact (List.pairwise_cons.mp hins).2

theorem RankSorted_addAlert_fresh (s : AlertState) (m : String) (p : Priority)
    (t : Nat) (hm : mapLookup (p, m) s.alertMap = none)
    (hr : RankSorted s.queue) : RankSorted (addAlert s m p t).queue := by
  by_cases hlen : (insertQ ⟨m, p, t, 1⟩ s.queue).length ≤ MAX_ALERTS
  · rw [addAlert_fresh_small hm hlen]
    exact RankSorted_insertQ _ _ hr
  · have hlen2 := not_le.mp hlen
    cases hq : insertQ (⟨m, p, t, 1⟩ : GAlert) s.queue with
    | nil =>
        rw [hq] at hlen2
        exact absurd hlen2 (by simp [MAX_ALERTS])
    | cons removed rest =>
        rw [addAlert_fresh_evict hm hq hlen2]
        have hins : RankSorted (insertQ (⟨m, p, t, 1⟩ : GAlert) s.queue) :=
          RankSorted_insertQ _ _ hr
        rw [hq] at hins
        unfold RankSorted at hins ⊢
        exact (List.pairwise_cons.mp hins).2

theorem keysOfQ_addAlert_subset (s : AlertState) (m : String) (p : Priority)
    (t : Nat) (h : Inv s) :
    ∀ k ∈ keysOfQ (addAlert s m p t).queue, k = (p, m) ∨ k ∈ keysOfQ s.queue := by
  intro k hk
  cases hm : mapLookup (p, m) s.alertMap with
  | some g =>
      have hgq : g ∈ s.queue ∧ g.key = (p, m) := memQ_of_lookup_some h hm
      have hc : 1 ≤ g.count := h.2.2.2.2 g hgq.1
      rw [addAlert_merge hm hc] at hk
      right
      rw [keysOfQ_queueUpdate s.queue (by rw [← hgq.2]; rfl)] at hk
      exact hk
  | none =>
      have hmem : k ∈ keysOfQ (insertQ (⟨m, p, t, 1⟩ : GAlert) s.queue) := by
        by_cases hlen : (insertQ ⟨m, p, t, 1⟩ s.queue).length ≤ MAX_ALERTS
        · rw [addAlert_fresh_small hm hlen] at hk
          exact hk
        · have hlen2 := not_le.mp hlen
          cases hq : insertQ (⟨m, p, t, 1⟩ : GAlert) s.queue with
          | nil =>
              rw [hq] at hlen2
              exact absurd hlen2 (by simp [MAX_ALERTS])
          | cons removed rest =>
              rw [addAlert_fresh_evict hm hq hlen2] at hk
              exact List.mem_cons_of_mem removed.key hk
      have hperm : List.Perm (keysOfQ (insertQ (⟨m, p, t, 1⟩ : GAlert) s.queue))
          ((⟨m, p, t, 1⟩ : GAlert).key :: keysOfQ s.queue) :=
        List.Perm.map GAlert.key (insertQ_perm _ s.queue)
      rcases List.mem_cons.mp (hperm.mem_iff.mp hmem) with h1 | h1
      · exact Or.inl h1
      · exact Or.inr h1

theorem PrioSorted_runAddsFrom (reqs : List AddReq) (s : AlertState)
    (h : Inv s) (hp : PrioSorted s.queue) :
    PrioSorted (runAddsFrom s reqs).queue := by
  induction reqs generalizing s with
  | nil => exact hp
  | cons r rest ih =>
      exact ih (addAlert s r.message r.priority r.timestamp)
        (Inv_addAlert s r.message r.priority r.timestamp h)
        (PrioSorted_addAlert s r.message r.priority r.timestamp h hp)

theorem RankSorted_runAddsFrom (reqs : List AddReq) (s : AlertState)
    (h : Inv s) (hr : RankSorted s.queue)
    (hnd : (reqs.map AddReq.key).Nodup)
    (hfresh : ∀ r ∈ reqs, AddReq.key r ∉ keysOfQ s.queue) :
    RankSorted (runAddsFrom s reqs).queue := by
  induction reqs generalizing s with
  | nil => exact hr
  | cons r rest ih =>
      have hm : mapLookup (r.priority, r.message) s.alertMap = none :=
        lookup_none_of_not_memQ h (hfresh r (List.mem_cons_self r rest))
      have hInv2 := Inv_addAlert s r.message r.priority r.timestamp h
      have hr2 := RankSorted_addAlert_fresh s r.message r.priority r.timestamp hm hr
      have hnd2 : (rest.map AddReq.key).Nodup := (List.nodup_cons.mp hnd).2
      have hhead : AddReq.key r ∉ rest.map AddReq.key := (List.nodup_cons.mp hnd).1
      refine ih (addAlert s r.message r.priority r.timestamp) hInv2 hr2 hnd2 ?_
      intro x hx hxk
      rcases keysOfQ_addAlert_subset s r.message r.priority r.timestamp h
          (AddReq.key x) hxk with h1 | h1
      · apply hhead
        have h1b : AddReq.key x = AddReq.key r := h1
        rw [← h1b]
        exact List.mem_map_of_mem AddReq.key hx
      · exact hfresh x (List.mem_cons_of_mem r hx) h1

/-! Lemmas about entriesWithKey, and the single-key run. -/

theorem entriesWithKey_nil_of_not_mem (k : AlertKey) (q : List GAlert)
    (h : k ∉ keysOfQ q) : entriesWithKey k q = [] := by
  induction q with
  | nil => rfl
  | cons b bs ih =>
      have hbk : b.key ≠ k := by
        intro hb
        exact h (by rw [← hb]; exact List.mem_map_of_mem GAlert.key (List.mem_cons_self b bs))
      have hbs : k ∉ keysOfQ bs := by
        intro hb
        exact h (List.mem_cons_of_mem b.key hb)
      simp only [entriesWithKey, List.filter_cons]
      rw [if_neg (by simp [hbk])]
      exact ih hbs

theorem entriesWithKey_queueUpdate {k : AlertKey} {g : GAlert}
    {q : List GAlert} (hnd : (keysOfQ q).Nodup) (hkq : k ∈ keysOfQ q)
    (hgk : g.key = k) : entriesWithKey k (queueUpdate k g q) = [g] := by
  induction q with
  | nil => exact absurd hkq (List.not_mem_nil k)
  | cons b bs ih =>
      have hnd2 : (keysOfQ bs).Nodup := (List.nodup_cons.mp hnd).2
      have h0nm : b.key ∉ keysOfQ bs := (List.nodup_cons.mp hnd).1
      simp only [queueUpdate]
      by_cases h0 : b.key = k
      · rw [if_pos h0]
        simp only [entriesWithKey, List.filter_cons]
        rw [if_pos (by simp [hgk])]
        have : k ∉ keysOfQ bs := by rw [← h0]; exact h0nm
        rw [show List.filter (fun x => decide (x.key = k)) bs
            = entriesWithKey k bs from rfl]
        rw [entriesWithKey_nil_of_not_mem k bs this]
      · rw [if_neg h0]
        have hkbs : k ∈ keysOfQ bs := by
          rcases List.mem_cons.mp hkq with he | he
          · exact absurd he.symm h0
          · exact he
        simp only [entriesWithKey, List.filter_cons]
        rw [if_neg (by simp [h0])]
        exact ih hnd2 hkbs

theorem addAlert_empty (m : String) (p : Priority) (t : Nat) :
    addAlert AlertState.empty m p t = singleState m p t 1 := by
  have hm : mapLookup (p, m) AlertState.empty.alertMap = none := rfl
  have hlen : (insertQ ⟨m, p, t, 1⟩ AlertState.empty.queue).length ≤ MAX_ALERTS := by
    simp [AlertState.empty, insertQ, MAX_ALERTS]
  rw [addAlert_fresh_small hm hlen]
  simp [AlertState.empty, insertQ, singleState]

theorem addAlert_single (m : String) (p : Priority) (u t c : Nat)
    (hc : 1 ≤ c) : addAlert (singleState m p u c) m p t = singleState m p t (c + 1) := by
  have hm : mapLookup (p, m) (singleState m p u c).alertMap
      = some ⟨m, p, u, c⟩ := by
    simp [singleState, mapLookup]
  rw [addAlert_merge hm hc]
  simp [singleState, queueUpdate, mapUpdate, GAlert.key]

theorem runAddsFrom_single (ts : List Nat) (m : String) (p : Priority)
    (u c : Nat) (hc : 1 ≤ c) :
    runAddsFrom (singleState m p u c) (ts.map (fun v => ⟨m, p, v⟩)) =
      singleState m p (ts.getLastD u) (c + ts.length) := by
  induction ts generalizing u c with
  | nil => simp [runAddsFrom]
  | cons v vs ih =>
      rw [List.map_cons]
      show runAddsFrom (addAlert (singleState m p u c) m p v)
          (vs.map (fun v => ⟨m, p, v⟩)) = _
      rw [addAlert_single m p u v c hc]
      rw [ih v (c + 1) (by omega)]
      rw [List.getLastD_cons]
      have hcv : c + 1 + vs.length = c + (vs.length + 1) := by omega
      rw [hcv]
      simp

theorem runAdds_repeated (m : String) (p : Priority) (t0 : Nat)
    (ts : List Nat) :
    (runAdds ((t0 :: ts).map (fun u => ⟨m, p, u⟩))).queue =
      [⟨m, p, ts.getLastD t0, ts.length + 1⟩] := by
  unfold runAdds
  rw [List.map_cons]
  show (runAddsFrom (addAlert AlertState.empty m p t0)
      (ts.map (fun u => ⟨m, p, u⟩))).queue = _
  rw [addAlert_empty m p t0]
  rw [runAddsFrom_single ts m p t0 1 (le_refl 1)]
  simp only [singleState]
  rw [show 1 + ts.length = ts.length + 1 from by omega]

/-! Claim theorems for the alert queue ordering and dedup. -/

/-- C2 (amended): every snapshot lists high-priority entries before medium
before low ones (this survives merges); within the same priority the
most-recent-first order is guaranteed for add sequences with pairwise
distinct (priority, message) keys - a merge refreshes the stored entry
timestamp in place without re-positioning it in the queue, so the
within-priority order reflects enqueue-time timestamps (see
snapshot_merge_order_cex); and the concrete scenario low, high, medium
snapshots as [high, medium, low]. -/
theorem snapshot_ordering (reqs : List AddReq) :
    PrioSorted (snapshot (runAdds reqs)) ∧
    ((reqs.map AddReq.key).Nodup → RankSorted (snapshot (runAdds reqs))) ∧
    (snapshot (runAdds
        [⟨"L", Priority.low, 1⟩, ⟨"H", Priority.high, 2⟩,
         ⟨"M", Priority.medium, 3⟩])).map GAlert.priority =
      [Priority.high, Priority.medium, Priority.low] := by
  refine ⟨?_, ?_, by decide⟩
  · exact PrioSorted_runAddsFrom reqs AlertState.empty Inv_empty List.Pairwise.nil
  · intro hnd
    refine RankSorted_runAddsFrom reqs AlertState.empty Inv_empty
      List.Pairwise.nil hnd ?_
    intro r hr hk
    exact List.not_mem_nil r.key hk

/-- Witness for snapshot_ordering at the three-alert scenario. -/
theorem snapshot_ordering_witness :
    RankSorted (snapshot (runAdds
      [⟨"L", Priority.low, 1⟩, ⟨"H", Priority.high, 2⟩,
       ⟨"M", Priority.medium, 3⟩])) :=
  (snapshot_ordering
    [⟨"L", Priority.low, 1⟩, ⟨"H", Priority.high, 2⟩,
     ⟨"M", Priority.medium, 3⟩]).2.1 (by decide)

/-- C2 counterexample: adding A(low) at time 1, B(low) at time 2, then A(low)
again at time 3 merges into the queued A entry, refreshing its timestamp to 3
without re-positioning it; the snapshot lists B (timestamp 2) before A
(timestamp 3), so the within-priority most-recent-first order does not hold
after a merge. -/
theorem snapshot_merge_order_cex :
    snapshot (runAdds
        [⟨"A", Priority.low, 1⟩, ⟨"B", Priority.low, 2⟩,
         ⟨"A", Priority.low, 3⟩]) =
      [⟨"B", Priority.low, 2, 1⟩, ⟨"A", Priority.low, 3, 2⟩] ∧
    ¬ RankSorted (snapshot (runAdds
        [⟨"A", Priority.low, 1⟩, ⟨"B", Priority.low, 2⟩,
         ⟨"A", Priority.low, 3⟩])) := by
  constructor
  · decide
  · decide

/-- C3: no two queue entries ever share a (priority, message) key along any
sequence of addAlert calls from a fresh instance; adding a message whose key
is already queued merges into the existing entry - the queue keeps exactly
one entry under that key, with count incremented and timestamp refreshed to
the new call, and the queue size unchanged; and n repeated calls with the
same message and priority from a fresh instance leave exactly one entry
whose count is n and whose timestamp is the last call time. -/
theorem alert_dedup (s : AlertState) (m : String) (p : Priority) (t : Nat)
    (g : GAlert) :
    (∀ reqs : List AddReq, (keysOfQ (runAdds reqs).queue).Nodup) ∧
    (Inv s → mapLookup (p, m) s.alertMap = some g →
      entriesWithKey (p, m) (addAlert s m p t).queue =
        [⟨m, p, t, g.count + 1⟩] ∧
      (addAlert s m p t).queue.length = s.queue.length) ∧
    (∀ (msg : String) (q : Priority) (t0 : Nat) (ts : List Nat),
      (runAdds ((t0 :: ts).map (fun u => ⟨msg, q, u⟩))).queue =
        [⟨msg, q, ts.getLastD t0, ts.length + 1⟩]) := by
  refine ⟨?_, ?_, ?_⟩
  · intro reqs
    exact (Inv_runAdds reqs).1
  · intro h hm
    have hgq : g ∈ s.queue ∧ g.key = (p, m) := memQ_of_lookup_some h hm
    have hc : 1 ≤ g.count := h.2.2.2.2 g hgq.1
    have hgm : g.message = m := congrArg Prod.snd hgq.2
    have hgp : g.priority = p := congrArg Prod.fst hgq.2
    rw [addAlert_merge hm hc]
    constructor
    · have hkq : (p, m) ∈ keysOfQ s.queue := by
        rw [← hgq.2]
        exact List.mem_map_of_mem GAlert.key hgq.1
      have hmk : ({ g with count := g.count + 1, timestamp := t } : GAlert).key
          = (p, m) := by
        rw [← hgq.2]
        rfl
      rw [entriesWithKey_queueUpdate h.1 hkq hmk]
      rw [show ({ g with count := g.count + 1, timestamp := t } : GAlert)
          = ⟨m, p, t, g.count + 1⟩ from by rw [← hgm, ← hgp]]
    · exact queueUpdate_length _ _ _
  · intro msg q t0 ts
    exact runAdds_repeated msg q t0 ts

/-- Witness for alert_dedup: the merge conjunct applied at the single-entry
state reached by one addAlert call, and the repeated-call conjunct at a
two-call run. -/
theorem alert_dedup_witness :
    entriesWithKey (Priority.high, "X")
        (addAlert (singleState "X" Priority.high 1 1) "X" Priority.high 2).queue =
      [⟨"X", Priority.high, 2, 2⟩] ∧
    (runAdds [⟨"X", Priority.high, 1⟩, ⟨"X", Priority.high, 2⟩]).queue =
      [⟨"X", Priority.high, 2, 2⟩] := by
  constructor
  · exact ((alert_dedup (singleState "X" Priority.high 1 1) "X" Priority.high 2
      ⟨"X", Priority.high, 1, 1⟩).2.1 (by decide) (by decide)).1
  · exact (alert_dedup AlertState.empty "X" Priority.high 0
      ⟨"X", Priority.high, 0, 1⟩).2.2 "X" Priority.high 1 [2]

theorem msgF_injective : Function.Injective msgF := by
  intro i j h
  have hlen : (msgF i).length = (msgF j).length := congrArg String.length h
  simp only [msgF] at hlen
  have : (List.replicate (i + 1) 'a').length = (List.replicate (j + 1) 'a').length := hlen
  simp only [List.length_replicate] at this
  omega

theorem entryF_key (i : Nat) : (entryF i).key = (Priority.low, msgF i) := rfl

theorem fullQueue_length : fullQueue.length = MAX_ALERTS := by
  simp [fullQueue, MAX_ALERTS]

theorem fullQueue_all_low : ∀ g ∈ fullQueue, g.priority = Priority.low := by
  intro g hg
  rcases List.mem_map.mp hg with ⟨i, _, hig⟩
  rw [← hig]
  rfl

theorem fullQueue_rankSorted : RankSorted fullQueue := by
  unfold RankSorted fullQueue
  rw [List.pairwise_map]
  refine List.Pairwise.imp ?_ (List.pairwise_lt_range 1000)
  intro i j hij
  rw [qBefore_false_iff]
  right
  refine ⟨rfl, ?_⟩
  simp only [entryF]
  omega

theorem fullQueue_keysNodup : (keysOfQ fullQueue).Nodup := by
  unfold keysOfQ fullQueue
  rw [List.map_map]
  refine List.Nodup.map ?_ (List.nodup_range 1000)
  intro i j h
  simp only [Function.comp_apply, entryF_key] at h
  exact msgF_injective (congrArg Prod.snd h)

theorem fullMap_keys : keysOfM fullMap = keysOfQ fullQueue := by
  unfold keysOfM fullMap keysOfQ
  rw [List.map_map]
  rfl

theorem Inv_fullState : Inv fullState1000 := by
  refine ⟨fullQueue_keysNodup, ?_, ?_, ?_, ?_⟩
  · rw [show keysOfM fullState1000.alertMap = keysOfQ fullQueue from fullMap_keys]
    exact fullQueue_keysNodup
  · intro g hg
    exact List.mem_map_of_mem (fun g => (g.key, g)) hg
  · intro e he
    rcases List.mem_map.mp he with ⟨g, hgq, hge⟩
    rw [← hge]
    exact ⟨hgq, rfl⟩
  · intro g hg
    rcases List.mem_map.mp hg with ⟨i, _, hig⟩
    rw [← hig]
    exact le_refl 1

theorem fullMap_keys_ne_fresh :
    ∀ e ∈ fullMap, e.1 ≠ (Priority.high, "fresh") := by
  intro e he
  rcases List.mem_map.mp he with ⟨g, hgq, hge⟩
  rw [← hge]
  intro hk
  have : g.priority = Priority.high := congrArg Prod.fst hk
  rw [fullQueue_all_low g hgq] at this
  exact Priority.noConfusion this

theorem lookup_fresh_none :
    mapLookup (Priority.high, "fresh") fullState1000.alertMap = none := by
  rw [mapLookup_eq_none_iff]
  exact fullMap_keys_ne_fresh

/-- C1 (amended): after every addAlert the queue holds at most MAX_ALERTS
(1000) entries, and when inserting a new (non-merged) alert makes the size
exceed MAX_ALERTS, exactly one entry is evicted by the dequeue - the queue
FRONT, which is the highest-ranked entry of the enlarged queue (highest
priority first, most recent timestamp first; no entry strictly precedes it
under the comparator) - not the lowest-ranked one (see
eviction_drops_front_cex). -/
theorem addAlert_eviction (s : AlertState) (m : String) (p : Priority)
    (t : Nat) :
    (Inv s → s.queue.length ≤ MAX_ALERTS →
      (addAlert s m p t).queue.length ≤ MAX_ALERTS) ∧
    (mapLookup (p, m) s.alertMap = none → s.queue.length = MAX_ALERTS →
      RankSorted s.queue →
      ∃ evicted rest, insertQ ⟨m, p, t, 1⟩ s.queue = evicted :: rest ∧
        (addAlert s m p t).queue = rest ∧
        rest.length = MAX_ALERTS ∧
        (∀ x ∈ insertQ ⟨m, p, t, 1⟩ s.queue, qBefore x evicted = false)) := by
  constructor
  · intro h hlen
    cases hm : mapLookup (p, m) s.alertMap with
    | some g =>
        have hgq : g ∈ s.queue ∧ g.key = (p, m) := memQ_of_lookup_some h hm
        have hc : 1 ≤ g.count := h.2.2.2.2 g hgq.1
        rw [addAlert_merge hm hc]
        rw [show (AlertState.mk (queueUpdate (p, m)
            { g with count := g.count + 1, timestamp := t } s.queue)
            (mapUpdate (p, m)
            { g with count := g.count + 1, timestamp := t } s.alertMap)).queue
            = queueUpdate (p, m)
            { g with count := g.count + 1, timestamp := t } s.queue from rfl]
        rw [queueUpdate_length]
        exact hlen
    | none =>
        by_cases hsmall : (insertQ ⟨m, p, t, 1⟩ s.queue).length ≤ MAX_ALERTS
        · rw [addAlert_fresh_small hm hsmall]
          exact hsmall
        · have hbig := not_le.mp hsmall
          cases hq : insertQ (⟨m, p, t, 1⟩ : GAlert) s.queue with
          | nil =>
              rw [hq] at hbig
              exact absurd hbig (by simp [MAX_ALERTS])
          | cons removed rest =>
              rw [addAlert_fresh_evict hm hq hbig]
              have hlq : (insertQ (⟨m, p, t, 1⟩ : GAlert) s.queue).length
                  = s.queue.length + 1 := insertQ_length _ _
              rw [hq] at hlq
              simp only [List.length_cons] at hlq
              show rest.length ≤ MAX_ALERTS
              omega
  · intro hm hlen hr
    have hlq : (insertQ (⟨m, p, t, 1⟩ : GAlert) s.queue).length
        = s.queue.length + 1 := insertQ_length _ _
    have hbig : MAX_ALERTS < (insertQ (⟨m, p, t, 1⟩ : GAlert) s.queue).length := by
      omega
    cases hq : insertQ (⟨m, p, t, 1⟩ : GAlert) s.queue with
    | nil =>
        rw [hq] at hbig
        exact absurd hbig (by simp [MAX_ALERTS])
    | cons removed rest =>
        refine ⟨removed, rest, rfl, ?_, ?_, ?_⟩
        · rw [addAlert_fresh_evict hm hq hbig]
        · rw [hq] at hlq
          simp only [List.length_cons] at hlq
          omega
        · have hins : RankSorted (insertQ (⟨m, p, t, 1⟩ : GAlert) s.queue) :=
            RankSorted_insertQ _ _ hr
          rw [hq] at hins
          unfold RankSorted at hins
          intro x hx
          rcases List.mem_cons.mp hx with hxr | hxrest
          · subst hxr
            exact qBefore_irrefl x
          · exact (List.pairwise_cons.mp hins).1 x hxrest

/-- Witness for addAlert_eviction at the concrete full queue of 1000
low-priority alerts. -/
theorem addAlert_eviction_witness :
    (addAlert fullState1000 "fresh" Priority.high 2000).queue.length
        ≤ MAX_ALERTS ∧
    (∃ evicted rest,
      insertQ ⟨"fresh", Priority.high, 2000, 1⟩ fullState1000.queue
          = evicted :: rest ∧
        (addAlert fullState1000 "fresh" Priority.high 2000).queue = rest ∧
        rest.length = MAX_ALERTS ∧
        (∀ x ∈ insertQ ⟨"fresh", Priority.high, 2000, 1⟩ fullState1000.queue,
          qBefore x evicted = false)) := by
  constructor
  · exact (addAlert_eviction fullState1000 "fresh" Priority.high 2000).1
      Inv_fullState (le_of_eq fullQueue_length)
  · exact (addAlert_eviction fullState1000 "fresh" Priority.high 2000).2
      lookup_fresh_none fullQueue_length fullQueue_rankSorted

/-- C1 counterexample: adding a fresh HIGH-priority alert to a full queue of
1000 LOW-priority alerts evicts the newly inserted high alert itself (the
queue front), leaving the whole state unchanged; in particular the
lowest-ranked entry - entryF 999, the low-priority alert with the oldest
timestamp 1 - survives, and no high-priority entry is present afterwards.
The claim that the evicted entry is the lowest-ranked one (lowest priority,
then oldest timestamp) is therefore false on the code. -/
theorem eviction_drops_front_cex :
    addAlert fullState1000 "fresh" Priority.high 2000 = fullState1000 ∧
    fullState1000.queue.length = MAX_ALERTS ∧
    (∀ g ∈ fullState1000.queue, g.priority = Priority.low) ∧
    entryF 999 ∈ (addAlert fullState1000 "fresh" Priority.high 2000).queue ∧
    (entryF 999).timestamp = 1 ∧
    (∀ g ∈ (addAlert fullState1000 "fresh" Priority.high 2000).queue,
      g.priority ≠ Priority.high) := by
  have hfront : ∀ b ∈ fullQueue,
      qBefore (⟨"fresh", Priority.high, 2000, 1⟩ : GAlert) b = true := by
    intro b hb
    rw [qBefore_true_iff]
    left
    rw [fullQueue_all_low b hb]
    decide
  have hins : insertQ (⟨"fresh", Priority.high, 2000, 1⟩ : GAlert) fullQueue
      = (⟨"fresh", Priority.high, 2000, 1⟩ : GAlert) :: fullQueue :=
    insertQ_front _ _ hfront
  have hbig : MAX_ALERTS <
      (insertQ (⟨"fresh", Priority.high, 2000, 1⟩ : GAlert) fullQueue).length := by
    rw [hins]
    simp only [List.length_cons]
    rw [show fullQueue.length = MAX_ALERTS from fullQueue_length]
    omega
  have hmain : addAlert fullState1000 "fresh" Priority.high 2000 = fullState1000 := by
    rw [addAlert_fresh_evict lookup_fresh_none hins hbig]
    show AlertState.mk fullQueue _ = fullState1000
    rw [show (⟨"fresh", Priority.high, 2000, 1⟩ : GAlert).key
        = (Priority.high, "fresh") from rfl]
    rw [show fullState1000.alertMap = fullMap from rfl]
    rw [mapErase_append_fresh _ _ _ fullMap_keys_ne_fresh]
    rfl
  refine ⟨hmain, fullQueue_length, fullQueue_all_low, ?_, by decide, ?_⟩
  · rw [hmain]
    exact List.mem_map_of_mem entryF (List.mem_range.mpr (by omega))
  · rw [hmain]
    intro g hg
    rw [fullQueue_all_low g hg]
    decide

/-! Helper lemmas for the glacier melt stream. -/

theorem meltCoef_nonneg (w : Weather) : 0 ≤ meltCoef w := by
  cases w <;> norm_num [meltCoef, MELT_RATE_SUNNY, MELT_RATE_CLOUDY, MELT_RATE_RAINY,
    MELT_RATE_STORMY]

theorem glacierMeltStep_volume_nonneg (w : Weather) (v : ℚ) :
    0 ≤ (glacierMeltStep w v).volume :=
  le_max_left 0 _

theorem glacierMeltStep_volume_le (w : Weather) (v : ℚ) (hv : 0 ≤ v) :
    (glacierMeltStep w v).volume ≤ v := by
  have hc : 0 ≤ v * meltCoef w := mul_nonneg hv (meltCoef_nonneg w)
  have h1 : v - v * meltCoef w ≤ v := by linarith
  exact max_le hv h1

theorem glacierRun_bounds (ws : List Weather) (v : ℚ) (hv : 0 ≤ v) :
    0 ≤ glacierRun ws v ∧ glacierRun ws v ≤ v := by
  induction ws generalizing v with
  | nil => exact ⟨hv, le_refl v⟩
  | cons w ws ih =>
      have h0 : 0 ≤ (glacierMeltStep w v).volume := glacierMeltStep_volume_nonneg w v
      have h1 : (glacierMeltStep w v).volume ≤ v := glacierMeltStep_volume_le w v hv
      have hrec := ih (glacierMeltStep w v).volume h0
      refine ⟨hrec.1, le_trans hrec.2 h1⟩

/-- C7: per tick the glacier melt stream computes meltRate = volume times the
weather coefficient (sunny 0.0001, cloudy 0.00005, rainy 0.00015,
stormy 0.0002), waterFlow = meltRate times the fixed adjustment factor
0.8 which is at most 1, and the new volume max(0, volume - meltRate); for
nonnegative volume the volume stays nonnegative and is non-increasing across
any sequence of ticks. -/
theorem glacierMeltStep_spec (w : Weather) (v : ℚ) (hv : 0 ≤ v) :
    ((glacierMeltStep w v).meltRate = v * meltCoef w ∧
     meltCoef Weather.sunny = 1/10000 ∧
     meltCoef Weather.cloudy = 5/100000 ∧
     meltCoef Weather.rainy = 15/100000 ∧
     meltCoef Weather.stormy = 2/10000 ∧
     (glacierMeltStep w v).waterFlow =
       (glacierMeltStep w v).meltRate * WATER_FLOW_ADJUSTMENT ∧
     WATER_FLOW_ADJUSTMENT ≤ 1 ∧
     (glacierMeltStep w v).volume = max 0 (v - (glacierMeltStep w v).meltRate) ∧
     0 ≤ (glacierMeltStep w v).volume ∧
     (glacierMeltStep w v).volume ≤ v) ∧
    (∀ ws : List Weather, 0 ≤ glacierRun ws v ∧ glacierRun ws v ≤ v) := by
  refine ⟨⟨rfl, rfl, rfl, rfl, rfl, rfl, by norm_num [WATER_FLOW_ADJUSTMENT], rfl,
    glacierMeltStep_volume_nonneg w v, glacierMeltStep_volume_le w v hv⟩, ?_⟩
  intro ws
  exact glacierRun_bounds ws v hv

/-- Witness for glacierMeltStep_spec at weather sunny and volume 1000000. -/
theorem glacierMeltStep_spec_witness :
    (glacierMeltStep Weather.sunny 1000000).meltRate =
        1000000 * meltCoef Weather.sunny ∧
      0 ≤ glacierRun [Weather.sunny, Weather.stormy] 1000000 ∧
      glacierRun [Weather.sunny, Weather.stormy] 1000000 ≤ 1000000 := by
  have h := glacierMeltStep_spec Weather.sunny 1000000 (by norm_num)
  exact ⟨h.1.1, (h.2 [Weather.sunny, Weather.stormy]).1,
    (h.2 [Weather.sunny, Weather.stormy]).2⟩

/-- C8: the derived aggregates satisfy
totalWaterProcessed = purifiedWater + waterDistributed and
systemEfficiency = purifiedWater / totalWaterProcessed * 100 with the zero
denominator guarded to exactly 0; under JavaScript number semantics the
guarded computation never produces NaN for finite field values. -/
theorem systemEfficiency_spec (s : SysState) :
    totalWaterProcessed s = s.purifiedWater + s.waterDistributed ∧
    (totalWaterProcessed s = 0 → systemEfficiency s = 0) ∧
    (totalWaterProcessed s ≠ 0 →
      systemEfficiency s = s.purifiedWater / totalWaterProcessed s * 100) ∧
    (∀ p d : ℚ, jsSystemEfficiency (JSNum.num p) (JSNum.num d) ≠ JSNum.nan) := by
  refine ⟨rfl, ?_, ?_, ?_⟩
  · intro h
    simp [systemEfficiency, h]
  · intro h
    simp [systemEfficiency, h]
  · intro p d
    by_cases h : p + d = 0
    · simp [jsSystemEfficiency, jsAdd, h]
    · simp only [jsSystemEfficiency, jsAdd]
      rw [if_neg (by simp [h])]
      simp [jsDiv, jsMul, h]

/-- Witness for systemEfficiency_spec: a state with zero processed water has
efficiency exactly 0, and one with nonzero processed water satisfies the
ratio formula. -/
theorem systemEfficiency_spec_witness :
    systemEfficiency initState = 0 ∧
      systemEfficiency
          { initState with purifiedWater := 30, waterDistributed := 10 } =
        30 / totalWaterProcessed
            { initState with purifiedWater := 30, waterDistributed := 10 } * 100 ∧
      jsSystemEfficiency (JSNum.num 0) (JSNum.num 0) ≠ JSNum.nan := by
  refine ⟨(systemEfficiency_spec initState).2.1 (by norm_num [totalWaterProcessed, initState]),
    (systemEfficiency_spec _).2.2.1 (by norm_num [totalWaterProcessed]), ?_⟩
  exact (systemEfficiency_spec initState).2.2.2 0 0

/-- C9: a dam emission at level at most 20 contributes no purification
emissions, leaving the scan accumulator (the purifiedWater value) unchanged;
a dam emission at level above 20 contributes exactly 5 equal emissions of
(level * efficiency) / 5 summing to level * efficiency, and the sampled
efficiency 0.5 + rand * 0.3 lies in [0.5, 0.8) for rand in [0, 1). -/
theorem purification_spec (level efficiency rand acc : ℚ) :
    (level ≤ 20 → purifEmissions level efficiency = [] ∧
      purifAccumulate acc (purifEmissions level efficiency) = acc) ∧
    (20 < level →
      purifEmissions level efficiency = List.replicate 5 (level * efficiency / 5) ∧
      (purifEmissions level efficiency).length = 5 ∧
      (purifEmissions level efficiency).sum = level * efficiency) ∧
    (0 ≤ rand → rand < 1 →
      1/2 ≤ purifEfficiency rand ∧ purifEfficiency rand < 8/10) := by
  refine ⟨?_, ?_, ?_⟩
  · intro h
    have hne : ¬ (20 : ℚ) < level := not_lt.mpr h
    constructor
    · simp [purifEmissions, hne]
    · simp [purifEmissions, purifAccumulate, hne]
  · intro h
    refine ⟨by simp [purifEmissions, h], by simp [purifEmissions, h], ?_⟩
    simp only [purifEmissions, if_pos h]
    simp [List.sum_replicate, nsmul_eq_mul]
    ring
  · intro h0 h1
    constructor
    · have : 0 ≤ rand * (3/10) := mul_nonneg h0 (by norm_num)
      simp only [purifEfficiency]
      linarith
    · have : rand * (3/10) < 1 * (3/10) :=
        mul_lt_mul_of_pos_right h1 (by norm_num)
      simp only [purifEfficiency]
      linarith

/-- Witness for purification_spec at level 10 (no emission), level 50 with
efficiency 3/5 (five equal emissions), and rand 1/3. -/
theorem purification_spec_witness :
    purifEmissions 10 (3/5) = [] ∧
      (purifEmissions 50 (3/5)).sum = 50 * (3/5) ∧
      1/2 ≤ purifEfficiency (1/3) ∧ purifEfficiency (1/3) < 8/10 := by
  refine ⟨((purification_spec 10 (3/5) 0 0).1 (by norm_num)).1,
    ((purification_spec 50 (3/5) 0 0).2.1 (by norm_num)).2.2, ?_⟩
  exact (purification_spec 0 0 (1/3) 0).2.2 (by norm_num) (by norm_num)

/-- C10: the water-quality computation divides purified by
(purified + treated) with no zero check, so on the input purified = 0 and
treated = 0 the JavaScript computation produces NaN, and the surrounding
Math.max(0, Math.min(100, score)) clamp also yields NaN, which is not a
number in [0, 100] - under every weather condition. -/
theorem jsQualityStep_nan_on_zero (w : Weather) :
    jsQualityStep (JSNum.num 0) (JSNum.num 0) w = JSNum.nan ∧
    jsInRange0100 (jsQualityStep (JSNum.num 0) (JSNum.num 0) w) = false := by
  have h : jsQualityStep (JSNum.num 0) (JSNum.num 0) w = JSNum.nan := by
    cases w <;> simp [jsQualityStep, jsAdd, jsDiv, jsMul, jsMin, jsMax]
  exact ⟨h, by rw [h]; rfl⟩

/-- C5 evaluation at the failing boundary input: at
waterLevel = LOW_WATER_LEVEL = 30 and waterQuality = 90 the
overallSystemStatus computed property of useWaterSystem.ts returns Normal
(strict comparison), while the pure calculateOverallSystemStatus that the
repository tests exercise returns Concerning (non-strict comparison); away
from the boundary waterLevel = 30 the two functions agree everywhere. -/
theorem overallSystemStatus_boundary (l q : ℚ) :
    overallSystemStatus 30 90 = SystemStatus.Normal ∧
    calculateOverallSystemStatus 30 90 = SystemStatus.Concerning ∧
    (l ≠ 30 → overallSystemStatus l q = calculateOverallSystemStatus l q) := by
  refine ⟨by decide, by decide, ?_⟩
  intro hl
  unfold overallSystemStatus calculateOverallSystemStatus
  unfold CRITICAL_WATER_LEVEL CRITICAL_WATER_QUALITY LOW_WATER_LEVEL MEDIUM_WATER_QUALITY
  have hiff : (l < 30 ∨ q < 70) ↔ (l ≤ 30 ∨ q < 70) := by
    constructor
    · rintro (h | h)
      · exact Or.inl (le_of_lt h)
      · exact Or.inr h
    · rintro (h | h)
      · exact Or.inl (lt_of_le_of_ne h hl)
      · exact Or.inr h
  by_cases hc : l < 20 ∨ q < 50
  · rw [if_pos hc, if_pos hc]
  · rw [if_neg hc, if_neg hc]
    by_cases hm : l < 30 ∨ q < 70
    · rw [if_pos hm, if_pos (hiff.mp hm)]
    · rw [if_neg hm, if_neg (fun h => hm (hiff.mpr h))]

/-- Witness for overallSystemStatus_boundary away from the boundary. -/
theorem overallSystemStatus_boundary_witness :
    overallSystemStatus 50 80 = calculateOverallSystemStatus 50 80 :=
  (overallSystemStatus_boundary 50 80).2.2 (by norm_num)

/-! Range lemmas for the three clamped streams and the state invariant. -/

theorem damStep_mem (level : ℚ) (w : Weather) (flow rand : ℚ) :
    0 ≤ damStep level w flow rand ∧ damStep level w flow rand ≤ 100 := by
  unfold damStep
  constructor
  · exact le_max_left 0 _
  · exact max_le (by norm_num) (min_le_right _ 100)

theorem qualityStep_mem (p t : ℚ) (w : Weather) :
    0 ≤ qualityStep p t w ∧ qualityStep p t w ≤ 100 := by
  unfold qualityStep
  constructor
  · exact le_max_left 0 _
  · exact max_le (by norm_num) (min_le_left 100 _)

theorem floodStep_mem (level : ℚ) (w : Weather) :
    0 ≤ floodStep level w ∧ floodStep level w ≤ 100 := by
  unfold floodStep
  constructor
  · split_ifs <;> simp_all <;> norm_num
  · exact min_le_left 100 _

theorem syncDamVolume_fields (old s : SysState) :
    (syncDamVolume old s).waterLevel = s.waterLevel ∧
    (syncDamVolume old s).waterQuality = s.waterQuality ∧
    (syncDamVolume old s).floodRisk = s.floodRisk ∧
    (syncDamVolume old s).purifiedWater = s.purifiedWater ∧
    (syncDamVolume old s).waterDistributed = s.waterDistributed ∧
    (syncDamVolume old s).isManualMode = s.isManualMode := by
  unfold syncDamVolume
  split <;> exact ⟨rfl, rfl, rfl, rfl, rfl, rfl⟩

theorem applyEvent_preserves_range (s : SysState) (e : Event)
    (he : eventOkB e = true) (hs : StateInRange s) :
    StateInRange (applyEvent s e) := by
  have hf := syncDamVolume_fields s (applyPrimary s e)
  unfold StateInRange at hs ⊢
  rw [applyEvent, hf.1, hf.2.1, hf.2.2.1]
  cases e with
  | damTick level w flow rand =>
      by_cases hm : s.isManualMode = true
      · simp only [applyPrimary, if_pos hm]
        exact hs
      · simp only [applyPrimary, if_neg hm]
        exact ⟨damStep_mem level w flow rand, hs.2.1, hs.2.2⟩
  | qualityTick p t w =>
      simp only [applyPrimary]
      exact ⟨hs.1, qualityStep_mem p t w, hs.2.2⟩
  | floodTick level w =>
      simp only [applyPrimary]
      exact ⟨hs.1, hs.2.1, floodStep_mem level w⟩
  | purificationEmit v =>
      simp only [applyPrimary]
      exact hs
  | distributionEmit v =>
      simp only [applyPrimary]
      exact hs
  | setWaterLevel level =>
      have hl : 0 ≤ level ∧ level ≤ 100 := of_decide_eq_true he
      by_cases hm : s.isManualMode = true
      · simp only [applyPrimary, if_pos hm]
        exact ⟨hl, hs.2.1, hs.2.2⟩
      · simp only [applyPrimary, if_neg hm]
        exact hs
  | toggleManualMode =>
      by_cases hm : s.isManualMode = true
      · simp only [applyPrimary, if_pos hm]
        exact hs
      · simp only [applyPrimary, if_neg hm]
        exact hs
  | resetSystem =>
      simp only [applyPrimary]
      refine ⟨?_, ?_, ?_⟩ <;>
        norm_num [INITIAL_DAM_WATER_LEVEL, INITIAL_WATER_QUALITY,
          INITIAL_FLOOD_RISK]

theorem foldl_preserves_range (evs : List Event) (s : SysState)
    (he : ∀ e ∈ evs, eventOkB e = true) (hs : StateInRange s) :
    StateInRange (evs.foldl applyEvent s) := by
  induction evs generalizing s with
  | nil => exact hs
  | cons e evs ih =>
      exact ih (applyEvent s e)
        (fun x hx => he x (List.mem_cons_of_mem e hx))
        (applyEvent_preserves_range s e (he e (List.mem_cons_self e evs)) hs)

/-- C4 (amended): along every event sequence in which each setWaterLevel call
carries a level inside [0, 100], the fields waterLevel, waterQuality and
floodRisk stay within [0, 100]: the dam, quality and flood streams clamp
their outputs, the initial values are in range, and resetSystem restores
in-range constants.  The amendment is needed because setWaterLevel writes its
argument unclamped (see setWaterLevel_escapes_range). -/
theorem runEvents_in_range (evs : List Event)
    (he : ∀ e ∈ evs, eventOkB e = true) : StateInRange (runEvents evs) := by
  have h0 : StateInRange initState := by
    refine ⟨?_, ?_, ?_⟩ <;>
      norm_num [initState, INITIAL_DAM_WATER_LEVEL, INITIAL_WATER_QUALITY,
        INITIAL_FLOOD_RISK]
  exact foldl_preserves_range evs initState he h0

/-- Witness for runEvents_in_range on a concrete event sequence exercising
every event kind. -/
theorem runEvents_in_range_witness :
    StateInRange (runEvents
      [Event.damTick 50 Weather.rainy 5 (1/3),
       Event.qualityTick 10 5 Weather.sunny,
       Event.floodTick 85 Weather.stormy,
       Event.toggleManualMode,
       Event.setWaterLevel 60,
       Event.resetSystem,
       Event.purificationEmit 7,
       Event.distributionEmit 3]) := by
  apply runEvents_in_range
  intro e he
  fin_cases he <;> norm_num [eventOkB]

/-- C4 counterexample: setWaterLevel is an operation of the external
interface, and after toggleManualMode the call setWaterLevel(150) writes
150 into state.waterLevel, escaping [0, 100]; so the invariant as claimed
(preserved by every operation) fails. -/
theorem setWaterLevel_escapes_range :
    (runEvents [Event.toggleManualMode, Event.setWaterLevel 150]).waterLevel = 150 ∧
    ¬ (runEvents [Event.toggleManualMode, Event.setWaterLevel 150]).waterLevel ≤ 100 := by
  have h : (runEvents [Event.toggleManualMode, Event.setWaterLevel 150]).waterLevel = 150 := by
    norm_num [runEvents, applyEvent, applyPrimary, syncDamVolume, initState,
      INITIAL_DAM_WATER_LEVEL, INITIAL_DAM_WATER_VOLUME, INITIAL_WATER_QUALITY,
      INITIAL_FLOOD_RISK, INITIAL_WATER_LEVEL]
  refine ⟨h, ?_⟩
  rw [h]
  norm_num

/-- C6: setWaterLevel is a no-op on the whole state while not in manual mode;
from the initial (automatic) state, calling setWaterLevel(75), then
toggleManualMode(), then setWaterLevel(75) again leaves waterLevel at exactly
75 and damWaterVolume at 0.75 * INITIAL_DAM_WATER_VOLUME; and after any event
that changes waterLevel, damWaterVolume equals
waterLevel / 100 * INITIAL_DAM_WATER_VOLUME. -/
theorem setWaterLevel_manual_gating :
    (∀ (s : SysState) (level : ℚ), s.isManualMode = false →
       applyEvent s (Event.setWaterLevel level) = s) ∧
    ((runEvents [Event.setWaterLevel 75, Event.toggleManualMode,
        Event.setWaterLevel 75]).waterLevel = 75 ∧
     (runEvents [Event.setWaterLevel 75, Event.toggleManualMode,
        Event.setWaterLevel 75]).damWaterVolume =
       75 / 100 * INITIAL_DAM_WATER_VOLUME) ∧
    (∀ (s : SysState) (e : Event),
       (applyEvent s e).waterLevel ≠ s.waterLevel →
       (applyEvent s e).damWaterVolume =
         (applyEvent s e).waterLevel / 100 * INITIAL_DAM_WATER_VOLUME) := by
  refine ⟨?_, ?_, ?_⟩
  · intro s level h
    unfold applyEvent applyPrimary
    rw [h]
    simp [syncDamVolume]
  · norm_num [runEvents, applyEvent, applyPrimary, syncDamVolume, initState,
      INITIAL_DAM_WATER_LEVEL, INITIAL_DAM_WATER_VOLUME, INITIAL_WATER_QUALITY,
      INITIAL_FLOOD_RISK, INITIAL_WATER_LEVEL]
  · intro s e h
    rw [applyEvent] at h ⊢
    revert h
    unfold syncDamVolume
    split
    · intro _
      rfl
    · intro h
      rename_i hne
      rw [not_not] at hne
      exact absurd hne h

/-- Witness for setWaterLevel_manual_gating: the no-op case at the initial
state and the tracking case at a manual-mode state where the level changes. -/
theorem setWaterLevel_manual_gating_witness :
    applyEvent initState (Event.setWaterLevel 75) = initState ∧
    (applyEvent { initState with isManualMode := true }
        (Event.setWaterLevel 75)).damWaterVolume =
      (applyEvent { initState with isManualMode := true }
        (Event.setWaterLevel 75)).waterLevel / 100 * INITIAL_DAM_WATER_VOLUME := by
  constructor
  · exact setWaterLevel_manual_gating.1 initState 75 rfl
  · apply setWaterLevel_manual_gating.2.2
    norm_num [applyEvent, applyPrimary, syncDamVolume, initState,
      INITIAL_DAM_WATER_LEVEL, INITIAL_DAM_WATER_VOLUME, INITIAL_WATER_LEVEL]

end WaterSystem
